import Mathlib

/-!
# BigCommerce API client: pagers, validation errors, metafield index

A shallow embedding of `posts.go` and `products.go`.

* Go `error` values are `GoError`; a Go `error` result is `Option GoError`
  (`none` is `nil`).
* The HTTP transport is the only stateful collaborator.  Its state is made
  explicit as the `Trace` of requests issued so far: `Client.Do h req` is the
  answer to `req` when `h` was issued before it, and every accessor returns the
  extended trace next to its Go results.
* The two read-all loops need not terminate (a server may report "more" for
  ever), so they take a bound `fuel` on the number of loop iterations and return
  `none` as the Go result when it is used up; the trace is returned in any case.
* `page` and `retries` are Go `int`s that start at 1 and 0 and only grow by one
  per loop iteration; they are `Nat` and `Int` here, no iteration count that a
  run can reach makes them wrap.
* Go maps are association lists with pairwise distinct keys (`GoMap`); the order
  in which a `range` statement visits a map is not fixed by the language and
  is an input of the model (`Env.rangeOrder`).
-/

namespace Bigcommerce

set_option maxRecDepth 100000

/-! ## Values shared by the accessors -/

/-- Go `error` values: `new msg` is the value of `errors.New(msg)` and of
`fmt.Errorf` with that resulting text; `ErrNoContent` is the sentinel of the
package, declared outside these files (the "no content" failure kind of the
spec; it is compared by identity, so it is a constructor of its own). -/
inductive GoError where
  | new (msg : String)
  | ErrNoContent
  deriving DecidableEq, Repr

/-- Outbound request as assembled by `getAPIRequest(method, url, body)`. -/
structure Request where
  Method : String
  URL : String
  Body : Option String
  deriving DecidableEq, Repr

/-- Requests issued so far, oldest first. -/
abbrev Trace := List Request

/-- Response of the transport: `StatusCode` and `Body`, the latter being what
`ioutil.ReadAll(res.Body)` yields (the bytes, or the read error). -/
structure Response where
  StatusCode : Int
  Body : Except GoError String

/-- Go `map[string]V`: entries with pairwise distinct keys. -/
abbrev GoMap (V : Type) := List (String × V)

/-- Assignment `m[k] = v`: replaces the entry of `k`, or adds one. -/
def GoMap.set {V : Type} : GoMap V → String → V → GoMap V
  | [], k, v => [(k, v)]
  | (k1, v1) :: rest, k, v =>
    if k1 = k then (k, v) :: rest else (k1, v1) :: GoMap.set rest k v

/-- Lookup `m[k]` with the presence flag. -/
def GoMap.get {V : Type} : GoMap V → String → Option V
  | [], _ => none
  | (k1, v1) :: rest, k => if k1 = k then some v1 else GoMap.get rest k

/-- Keys of the map. -/
def GoMap.keys {V : Type} (m : GoMap V) : List String := m.map Prod.fst

/-- Builtin `len(m)`. -/
def GoMap.len {V : Type} (m : GoMap V) : Nat := m.length

/-- Modelled from the spec: `Pagination`, declared outside these files; the
v3 list envelope carries `meta: {pagination: {current_page, total_pages}}`. -/
structure Pagination where
  CurrentPage : Int
  TotalPages : Int
  deriving DecidableEq, Repr

/-- Modelled from the spec: `ErrorResult`, declared outside these files; the
422 body is `{errors: {field: message, ...}}`. -/
structure ErrorResult where
  Errors : GoMap String
  deriving DecidableEq, Repr

/-- Metafield record (`products.go`, `type Metafield`); `Time` stands for
`time.Time`. -/
structure Metafield (Time : Type) where
  ID : Int
  Key : String
  Value : String
  ResourceID : Int
  ResourceType : String
  Description : String
  DateCreated : Time
  DateModified : Time
  Namespace : String
  PermissionSet : String
  deriving DecidableEq, Repr

/-- Record types that the accessors only move around: `Post`,
`CreatePostPayload` (`posts.go`), `Product`, `CreateProductPayload`
(`products.go`) and `time.Time`.  No accessor reads a field of them. -/
structure Types where
  Post : Type
  CreatePostPayload : Type
  Product : Type
  CreateProductPayload : Type
  Time : Type

/-- Anonymous decode target of `GetProducts`:
`{status, title, data, meta: {pagination}}`. -/
structure ProductsPage (Product : Type) where
  Status : Int
  Title : String
  Data : List Product
  Pagination : Pagination

/-- Modelled from the spec: `Client`, declared outside these files; the two
members these files use are the retry bound `MaxRetries` and the transport
`HTTPClient.Do` ("an HTTP transport exposing do(request) -> (response, error)"),
which answers a request given the requests issued before it. -/
structure Client where
  MaxRetries : Int
  Do : Trace → Request → Except GoError Response

/-- Modelled from the spec: the collaborators declared outside these files,
taken as parameters: `processBody` (the response decoder; it returns the body
next to its verdict), `json.Marshal` / `json.Unmarshal` at each type they are
used at, and the order a `range` over a map takes at a given moment of the
run. -/
structure Env (T : Types) where
  processBody : Response → String × Option GoError
  rangeOrder : Trace → GoMap String → List (String × String)
  marshalPostPayloads : List T.CreatePostPayload → String
  marshalProductPayloads : List T.CreateProductPayload → String
  unmarshalPosts : String → Except GoError (List T.Post)
  unmarshalPost : String → Except GoError T.Post
  unmarshalProductsPage : String → Except GoError (ProductsPage T.Product)
  unmarshalProductData : String → Except GoError T.Product
  unmarshalErrorResult : String → Except GoError ErrorResult
  unmarshalMetafields : String → Except GoError (List (Metafield T.Time))

/-- Modelled from the spec: `getAPIRequest`, the request builder declared
outside these files ("given a path and method, produces an authenticated
outbound request"). -/
def getAPIRequest (method url : String) (body : Option String) : Request :=
  { Method := method, URL := url, Body := body }

/-- Go `strconv.Itoa` / `strconv.FormatInt(_, 10)`. -/
def Itoa (n : Int) : String := toString n

/-- Go `strings.Join(elems, sep)`. -/
def Join (elems : List String) (sep : String) : String := sep.intercalate elems

/-! ## posts.go -/

/-- Request of `GetPosts` for a page. -/
def postsRequest (page : Nat) : Request :=
  getAPIRequest "GET" ("/v2/blog/posts?limit=250&page=" ++ Itoa page) none

/-- `GetPosts(page)`: one page of posts, the has-more flag and the error. -/
def GetPosts {T : Types} (env : Env T) (bc : Client) (page : Nat) (h : Trace) :
    (List T.Post × Bool × Option GoError) × Trace :=
  let req := postsRequest page
  match bc.Do h req with
  | .error err => (([], false, some err), h ++ [req])
  | .ok res =>
    match env.processBody res with
    | (_, some err) => (([], false, some err), h ++ [req])
    | (body, none) =>
      match env.unmarshalPosts body with
      | .error err => (([], false, some err), h ++ [req])
      | .ok pp => ((pp, decide (pp.length = 250), none), h ++ [req])

/-- Loop of `GetAllPosts` from the state `cs`, `page`, `retries` with `more`
true; at most `fuel` iterations. -/
def GetAllPostsLoop {T : Types} (env : Env T) (bc : Client) :
    Nat → List T.Post → Nat → Int → Trace →
      Option (List T.Post × Option GoError) × Trace
  | 0, _, _, _, h => (none, h)
  | fuel + 1, cs, page, retries, h =>
    match GetPosts env bc page h with
    | ((_, _, some err), h1) =>
      if retries + 1 > bc.MaxRetries then
        (some (cs, some (GoError.new "max retries reached")), h1)
      else (some (cs, some err), h1)
    | ((csp, more, none), h1) =>
      if more then GetAllPostsLoop env bc fuel (cs ++ csp) (page + 1) retries h1
      else (some (cs ++ csp, none), h1)

/-- `GetAllPosts()`. -/
def GetAllPosts {T : Types} (env : Env T) (bc : Client) (fuel : Nat) :
    Option (List T.Post × Option GoError) × Trace :=
  GetAllPostsLoop env bc fuel [] 1 0 []

/-- The `errors` slice built by `for _, e := range errResp.Errors`. -/
def collectErrors (visited : List (String × String)) : List String :=
  visited.foldl (fun errors e => errors ++ [e.2]) []

/-- The 422 branch shared verbatim by `CreatePost` and `CreateProduct`. -/
def validationError {T : Types} (env : Env T) (h : Trace) (body : String) :
    GoError :=
  match env.unmarshalErrorResult body with
  | .error err => err
  | .ok errResp =>
    if errResp.Errors.len > 0 then
      GoError.new (Join (collectErrors (env.rangeOrder h errResp.Errors)) ", ")
    else GoError.new "unknown error"

/-- `CreatePost(payload)`. -/
def CreatePost {T : Types} (env : Env T) (bc : Client)
    (payload : T.CreatePostPayload) (h : Trace) :
    (Option T.Post × Option GoError) × Trace :=
  let b := env.marshalPostPayloads [payload]
  let req := getAPIRequest "POST" "/v2/blog/posts" (some b)
  match bc.Do h req with
  | .error err => ((none, some err), h ++ [req])
  | .ok res =>
    match env.processBody res with
    | (body, some err) =>
      if res.StatusCode = 422 then
        ((none, some (validationError env (h ++ [req]) body)), h ++ [req])
      else ((none, some err), h ++ [req])
    | (body, none) =>
      match env.unmarshalPost body with
      | .error err => ((none, some err), h ++ [req])
      | .ok ret => ((some ret, none), h ++ [req])

/-! ## products.go -/

/-- `CreateProduct(payload)`. -/
def CreateProduct {T : Types} (env : Env T) (bc : Client)
    (payload : T.CreateProductPayload) (h : Trace) :
    (Option T.Product × Option GoError) × Trace :=
  let b := env.marshalProductPayloads [payload]
  let req := getAPIRequest "POST" "/v3/catalog/products" (some b)
  match bc.Do h req with
  | .error err => ((none, some err), h ++ [req])
  | .ok res =>
    match env.processBody res with
    | (body, some err) =>
      if res.StatusCode = 422 then
        ((none, some (validationError env (h ++ [req]) body)), h ++ [req])
      else ((none, some err), h ++ [req])
    | (body, none) =>
      match env.unmarshalProductData body with
      | .error err => ((none, some err), h ++ [req])
      | .ok ret => ((some ret, none), h ++ [req])

/-- Request of `GetProducts` for a page; `visited` is `args` in the order the
`range` statement visits it. -/
def productsRequest (visited : List (String × String)) (page : Nat) : Request :=
  let fpart := visited.foldl (fun fpart kv => fpart ++ ("&" ++ kv.1 ++ "=" ++ kv.2)) ""
  getAPIRequest "GET" ("/v3/catalog/products?page=" ++ Itoa page ++ fpart) none

/-- `GetProducts(args, page)`: one page of products, the has-more flag and the
error. -/
def GetProducts {T : Types} (env : Env T) (bc : Client) (args : GoMap String)
    (page : Nat) (h : Trace) : (List T.Product × Bool × Option GoError) × Trace :=
  let req := productsRequest (env.rangeOrder h args) page
  match bc.Do h req with
  | .error err => (([], false, some err), h ++ [req])
  | .ok res =>
    if res.StatusCode = 204 then (([], false, some GoError.ErrNoContent), h ++ [req])
    else
      match res.Body with
      | .error err => (([], false, some err), h ++ [req])
      | .ok body =>
        match env.unmarshalProductsPage body with
        | .error err => (([], false, some err), h ++ [req])
        | .ok pp =>
          if pp.Status ≠ 0 then (([], false, some (GoError.new pp.Title)), h ++ [req])
          else
            ((pp.Data, decide (pp.Pagination.CurrentPage < pp.Pagination.TotalPages), none),
              h ++ [req])

/-- Loop of `GetAllProducts` from the state `ps`, `page`, `retries` with `more`
true; at most `fuel` iterations. -/
def GetAllProductsLoop {T : Types} (env : Env T) (bc : Client) (args : GoMap String) :
    Nat → List T.Product → Nat → Int → Trace →
      Option (List T.Product × Option GoError) × Trace
  | 0, _, _, _, h => (none, h)
  | fuel + 1, ps, page, retries, h =>
    match GetProducts env bc args page h with
    | ((_, _, some err), h1) =>
      if retries + 1 > bc.MaxRetries then (some (ps, some err), h1)
      else (some (ps, some err), h1)
    | ((psp, more, none), h1) =>
      if more then GetAllProductsLoop env bc args fuel (ps ++ psp) (page + 1) retries h1
      else (some (ps ++ psp, none), h1)

/-- `GetAllProducts(args)`. -/
def GetAllProducts {T : Types} (env : Env T) (bc : Client) (args : GoMap String)
    (fuel : Nat) : Option (List T.Product × Option GoError) × Trace :=
  GetAllProductsLoop env bc args fuel [] 1 0 []

/-- Request of `GetProductMetafields`. -/
def metafieldsRequest (productID : Int) : Request :=
  getAPIRequest "GET" ("/v3/catalog/products/" ++ Itoa productID ++ "/metafields") none

/-- The re-indexing loop `for _, mf := range ...Metafields { ret[mf.Key] = mf }`. -/
def indexMetafields {Time : Type} (metafields : List (Metafield Time)) :
    GoMap (Metafield Time) :=
  metafields.foldl (fun ret mf => GoMap.set ret mf.Key mf) []

/-- `GetProductMetafields(productID)`. -/
def GetProductMetafields {T : Types} (env : Env T) (bc : Client) (productID : Int)
    (h : Trace) : (Option (GoMap (Metafield T.Time)) × Option GoError) × Trace :=
  let req := metafieldsRequest productID
  match bc.Do h req with
  | .error err => ((none, some err), h ++ [req])
  | .ok res =>
    match env.processBody res with
    | (_, some err) => ((none, some err), h ++ [req])
    | (body, none) =>
      match env.unmarshalMetafields body with
      | .error err => ((none, some err), h ++ [req])
      | .ok metafields => ((some (indexMetafields metafields), none), h ++ [req])

/-! ## Runs of the two pagers -/

/-- Requests for the pages `1, ..., n` of posts, in that order. -/
def postsTrace (n : Nat) : Trace := (List.range' 1 n).map postsRequest

/-- Outcome of fetching page `j` of posts when the pages before it were
requested in order: items, has-more flag, error. -/
def postsPage {T : Types} (env : Env T) (bc : Client) (j : Nat) :
    List T.Post × Bool × Option GoError :=
  (GetPosts env bc j (postsTrace (j - 1))).1

/-- Requests for the pages `1, ..., n` of products, in that order, each with
`args` as the `range` statement visits it at that moment. -/
def productsTrace {T : Types} (env : Env T) (args : GoMap String) : Nat → Trace
  | 0 => []
  | n + 1 =>
    productsTrace env args n ++
      [productsRequest (env.rangeOrder (productsTrace env args n) args) (n + 1)]

/-- Outcome of fetching page `j` of products when the pages before it were
requested in order: items, has-more flag, error. -/
def productsPage {T : Types} (env : Env T) (bc : Client) (args : GoMap String) (j : Nat) :
    List T.Product × Bool × Option GoError :=
  (GetProducts env bc args j (productsTrace env args (j - 1))).1

/-- The fetch of page `j` of products is served with the envelope `pp`: the
transport answers, the status is not 204, the body is read and decodes to `pp`. -/
def productsServed {T : Types} (env : Env T) (bc : Client) (args : GoMap String) (j : Nat)
    (pp : ProductsPage T.Product) : Prop :=
  ∃ res body,
    bc.Do (productsTrace env args (j - 1))
        (productsRequest (env.rangeOrder (productsTrace env args (j - 1)) args) j) = .ok res ∧
      res.StatusCode ≠ 204 ∧ res.Body = .ok body ∧ env.unmarshalProductsPage body = .ok pp

/-- The 422 situation of a create call: the transport answers `req` with
status 422, `processBody` reports a failure and hands back a body, the body
decodes to `errResp`, and the `range` over its errors visits every entry once. -/
def validationFailure {T : Types} (env : Env T) (bc : Client) (h : Trace) (req : Request)
    (errResp : ErrorResult) : Prop :=
  ∃ res body perr,
    bc.Do h req = .ok res ∧ res.StatusCode = 422 ∧ env.processBody res = (body, some perr) ∧
      env.unmarshalErrorResult body = .ok errResp ∧
      (env.rangeOrder (h ++ [req]) errResp.Errors).Perm errResp.Errors

/-- The failure required for a decoded `errors` object: the value of its only
entry; with two entries or more the values, each once, in some order, joined by
", "; "unknown error" when it has no entry. -/
def normalisedFailure (errors : GoMap String) (err : Option GoError) : Prop :=
  (∀ k v, errors = [(k, v)] → err = some (GoError.new v)) ∧
    (2 ≤ errors.len →
      ∃ vs : List String, vs.Perm (errors.map Prod.snd) ∧
        err = some (GoError.new (", ".intercalate vs))) ∧
    (errors = [] → err = some (GoError.new "unknown error"))

/-- Value of a run of decimal digits, most significant first. -/
def decodeDigits (l : List Char) : Nat := l.foldl (fun acc c => 10 * acc + (c.toNat - 48)) 0

/-- Items of the pages `1, ..., n`, in page order and within-page order. -/
def pagesConcat {α : Type} (page : Nat → List α) (n : Nat) : List α :=
  (List.range' 1 n).flatMap page

/-! ## A concrete store, for evaluating the accessors -/

/-- Records as their titles, times as their text. -/
abbrev exTypes : Types :=
  { Post := String, CreatePostPayload := String, Product := String,
    CreateProductPayload := String, Time := String }

/-- Metafield with the given key and value. -/
def exMetafield (key value : String) : Metafield String :=
  { ID := 0, Key := key, Value := value, ResourceID := 7, ResourceType := "product",
    Description := "", DateCreated := "", DateModified := "", Namespace := "shop",
    PermissionSet := "" }

/-- Collaborators over a handful of bodies: `processBody` rejects every status
outside 200..299, a `range` visits a map in its stored order. -/
def exEnv : Env exTypes where
  processBody res :=
    match res.Body with
    | .error e => ("", some e)
    | .ok body =>
      if 200 ≤ res.StatusCode ∧ res.StatusCode ≤ 299 then (body, none)
      else (body, some (GoError.new "request failed"))
  rangeOrder _ m := m
  marshalPostPayloads ps := "[" ++ ", ".intercalate ps ++ "]"
  marshalProductPayloads ps := "[" ++ ", ".intercalate ps ++ "]"
  unmarshalPosts body :=
    if body = "full page" then .ok (List.replicate 250 "post")
    else if body = "one post" then .ok ["last post"]
    else if body = "[]" then .ok []
    else .error (GoError.new "invalid character")
  unmarshalPost body := .ok body
  unmarshalProductsPage body :=
    if body = "page 1 of 3" then .ok ⟨0, "", ["p1", "p2"], ⟨1, 3⟩⟩
    else if body = "page 2 of 3" then .ok ⟨0, "", ["p3"], ⟨2, 3⟩⟩
    else if body = "page 3 of 3" then .ok ⟨0, "", ["p4", "p5"], ⟨3, 3⟩⟩
    else if body = "page 1 of 2" then .ok ⟨0, "", ["p1"], ⟨1, 2⟩⟩
    else .error (GoError.new "invalid character")
  unmarshalProductData body := .ok body
  unmarshalErrorResult body :=
    if body = "title is required" then .ok ⟨[("title", "is required")]⟩
    else if body = "title and body" then .ok ⟨[("title", "is required"), ("body", "is empty")]⟩
    else if body = "no errors" then .ok ⟨[]⟩
    else .error (GoError.new "invalid character")
  unmarshalMetafields body :=
    if body = "color and size" then .ok [exMetafield "color" "red", exMetafield "size" "M"]
    else if body = "color twice, key absent twice" then
      .ok [exMetafield "color" "red", exMetafield "" "first", exMetafield "color" "blue",
        exMetafield "" "second"]
    else if body = "[]" then .ok []
    else .error (GoError.new "invalid character")

/-- Transport answering the successive requests with the given bodies (status
200) and refusing the connection afterwards. -/
def exServe (bodies : List String) (h : Trace) (_req : Request) : Except GoError Response :=
  match bodies.get? h.length with
  | some body => .ok { StatusCode := 200, Body := .ok body }
  | none => .error (GoError.new "connection refused")

/-- Client whose store holds 251 posts: a full page, then a page of one. -/
def exClientPosts : Client := { MaxRetries := 3, Do := exServe ["full page", "one post"] }

/-- Client whose transport fails on every call, with no retry allowed. -/
def exClientDown : Client := { MaxRetries := 0, Do := exServe [] }

/-- Client whose transport fails on every call, with three retries allowed. -/
def exClientDownRetry : Client := { MaxRetries := 3, Do := exServe [] }

/-- Client whose catalogue has three pages of products. -/
def exClientProducts : Client :=
  { MaxRetries := 3, Do := exServe ["page 1 of 3", "page 2 of 3", "page 3 of 3"] }

/-- Client that serves page 1 of 2 and answers 204 afterwards. -/
def exClientNoContent : Client where
  MaxRetries := 3
  Do h _ :=
    match h.length with
    | 0 => .ok { StatusCode := 200, Body := .ok "page 1 of 2" }
    | _ => .ok { StatusCode := 204, Body := .ok "ignored" }

/-- Client answering every request with status 422 and the given body. -/
def exClientInvalid (body : String) : Client :=
  { MaxRetries := 3, Do := fun _ _ => .ok { StatusCode := 422, Body := .ok body } }

/-- Client answering every request with status 200 and the given body. -/
def exClientOK (body : String) : Client :=
  { MaxRetries := 3, Do := fun _ _ => .ok { StatusCode := 200, Body := .ok body } }

/-- The three envelopes served by `exClientProducts`. -/
def exPages (j : Nat) : ProductsPage String :=
  match j with
  | 1 => ⟨0, "", ["p1", "p2"], ⟨1, 3⟩⟩
  | 2 => ⟨0, "", ["p3"], ⟨2, 3⟩⟩
  | _ => ⟨0, "", ["p4", "p5"], ⟨3, 3⟩⟩

/-- Client that serves one full page of posts and refuses the connection
afterwards. -/
def exClientPostsCut : Client := { MaxRetries := 3, Do := exServe ["full page"] }

/-- Client that serves one full page of posts and refuses the connection
afterwards, with no retry allowed. -/
def exClientPostsCutNoRetry : Client := { MaxRetries := 0, Do := exServe ["full page"] }

/-! ## Lemmas on the posts pager -/

theorem GetPosts_trace {T : Types} (env : Env T) (bc : Client) (page : Nat) (h : Trace) :
    (GetPosts env bc page h).2 = h ++ [postsRequest page] := by
  simp only [GetPosts]
  repeat' split
  all_goals rfl

/-- The two shapes of a `GetPosts` result. -/
theorem GetPosts_shape {T : Types} (env : Env T) (bc : Client) (page : Nat) (h : Trace) :
    (∃ e, (GetPosts env bc page h).1 = ([], false, some e)) ∨
      (∃ pp, (GetPosts env bc page h).1 = (pp, decide (pp.length = 250), none)) := by
  simp only [GetPosts]
  repeat' split
  · exact Or.inl ⟨_, rfl⟩
  · exact Or.inl ⟨_, rfl⟩
  · exact Or.inl ⟨_, rfl⟩
  · exact Or.inr ⟨_, rfl⟩

theorem GetPosts_more {T : Types} (env : Env T) (bc : Client) (page : Nat) (h : Trace)
    (hok : (GetPosts env bc page h).1.2.2 = none) :
    (GetPosts env bc page h).1.2.1 = decide ((GetPosts env bc page h).1.1.length = 250) := by
  rcases GetPosts_shape env bc page h with ⟨e, he⟩ | ⟨pp, hpp⟩
  · rw [he] at hok
    exact absurd hok (by simp)
  · rw [hpp]

theorem postsTrace_succ (n : Nat) : postsTrace (n + 1) = postsTrace n ++ [postsRequest (n + 1)] := by
  simp [postsTrace, List.range'_concat, Nat.add_comm]

theorem GetPosts_run {T : Types} (env : Env T) (bc : Client) (q : Nat) :
    GetPosts env bc (q + 1) (postsTrace q) = (postsPage env bc (q + 1), postsTrace (q + 1)) := by
  have h := GetPosts_trace env bc (q + 1) (postsTrace q)
  rw [← postsTrace_succ] at h
  exact Prod.ext (by simp [postsPage]) h

theorem pagesConcat_succ {α : Type} (page : Nat → List α) (n : Nat) :
    pagesConcat page (n + 1) = pagesConcat page n ++ page (n + 1) := by
  simp [pagesConcat, List.range'_concat, List.flatMap_append, Nat.add_comm]

/-- One iteration of the posts loop that goes on to the next page. -/
theorem GetAllPostsLoop_next {T : Types} (env : Env T) (bc : Client) (fuel q : Nat)
    (cs : List T.Post) (r : Int)
    (herr : (postsPage env bc (q + 1)).2.2 = none)
    (hmore : (postsPage env bc (q + 1)).2.1 = true) :
    GetAllPostsLoop env bc (fuel + 1) cs (q + 1) r (postsTrace q) =
      GetAllPostsLoop env bc fuel (cs ++ (postsPage env bc (q + 1)).1) (q + 2) r
        (postsTrace (q + 1)) := by
  rw [GetAllPostsLoop, GetPosts_run]
  rcases hpg : postsPage env bc (q + 1) with ⟨csp, more, err⟩
  rw [hpg] at herr hmore
  simp only at herr hmore
  subst herr hmore
  simp

/-- The iteration of the posts loop on a page without successor. -/
theorem GetAllPostsLoop_last {T : Types} (env : Env T) (bc : Client) (fuel q : Nat)
    (cs : List T.Post) (r : Int)
    (herr : (postsPage env bc (q + 1)).2.2 = none)
    (hmore : (postsPage env bc (q + 1)).2.1 = false) :
    GetAllPostsLoop env bc (fuel + 1) cs (q + 1) r (postsTrace q) =
      (some (cs ++ (postsPage env bc (q + 1)).1, none), postsTrace (q + 1)) := by
  rw [GetAllPostsLoop, GetPosts_run]
  rcases hpg : postsPage env bc (q + 1) with ⟨csp, more, err⟩
  rw [hpg] at herr hmore
  simp only at herr hmore
  subst herr hmore
  simp

/-- The iteration of the posts loop on a failing fetch. -/
theorem GetAllPostsLoop_fail {T : Types} (env : Env T) (bc : Client) (fuel q : Nat)
    (cs : List T.Post) (r : Int) (e : GoError)
    (herr : (postsPage env bc (q + 1)).2.2 = some e) :
    GetAllPostsLoop env bc (fuel + 1) cs (q + 1) r (postsTrace q) =
      (some (cs, some (if r + 1 > bc.MaxRetries then GoError.new "max retries reached" else e)),
        postsTrace (q + 1)) := by
  rw [GetAllPostsLoop, GetPosts_run]
  rcases hpg : postsPage env bc (q + 1) with ⟨csp, more, err⟩
  rw [hpg] at herr
  simp only at herr
  subst herr
  by_cases hr : r + 1 > bc.MaxRetries <;> simp [hr]

/-- The posts loop over `n` pages that all go on to the next page. -/
theorem GetAllPostsLoop_unroll {T : Types} (env : Env T) (bc : Client) (fuel : Nat) (r : Int)
    (n : Nat) (hn : ∀ j, 1 ≤ j → j ≤ n →
      (postsPage env bc j).2.2 = none ∧ (postsPage env bc j).2.1 = true) :
    GetAllPostsLoop env bc (n + fuel) [] 1 r [] =
      GetAllPostsLoop env bc fuel (pagesConcat (fun j => (postsPage env bc j).1) n) (n + 1) r
        (postsTrace n) := by
  induction n generalizing fuel with
  | zero => simp [pagesConcat, postsTrace]
  | succ n ih =>
    have h2 := hn (n + 1) (Nat.succ_le_succ (Nat.zero_le n)) (Nat.le_refl _)
    have e : n + 1 + fuel = n + (fuel + 1) := by omega
    rw [e, ih (fuel + 1) (fun j h1 h2 => hn j h1 (Nat.le_succ_of_le h2)),
      GetAllPostsLoop_next env bc fuel n _ r h2.1 h2.2, pagesConcat_succ]

theorem postsPage_more {T : Types} (env : Env T) (bc : Client) (j : Nat)
    (hok : (postsPage env bc j).2.2 = none) :
    (postsPage env bc j).2.1 = decide ((postsPage env bc j).1.length = 250) :=
  GetPosts_more env bc j _ hok

/-! ## Decimal page numbers in the request URLs -/

theorem digitChar_spec (m : Nat) (hm : m < 10) :
    (Nat.digitChar m).toNat - 48 = m ∧ (Nat.digitChar m).isDigit = true := by
  interval_cases m <;> exact ⟨by decide, by decide⟩

theorem toDigitsCore_append (f : Nat) : ∀ (n : Nat) (ds : List Char),
    Nat.toDigitsCore 10 f n ds = Nat.toDigitsCore 10 f n [] ++ ds := by
  induction f with
  | zero => intro n ds; simp [Nat.toDigitsCore]
  | succ f ih =>
    intro n ds
    simp only [Nat.toDigitsCore]
    by_cases h : n / 10 = 0
    · simp [h]
    · simp only [h, if_false]
      rw [ih (n / 10) (Nat.digitChar (n % 10) :: ds), ih (n / 10) [Nat.digitChar (n % 10)]]
      simp

theorem decodeDigits_append (l : List Char) (c : Char) :
    decodeDigits (l ++ [c]) = 10 * decodeDigits l + (c.toNat - 48) := by
  simp [decodeDigits, List.foldl_append]

theorem decodeDigits_toDigitsCore (f : Nat) : ∀ n, n < f →
    decodeDigits (Nat.toDigitsCore 10 f n []) = n := by
  induction f with
  | zero => intro n h; omega
  | succ f ih =>
    intro n hn
    simp only [Nat.toDigitsCore]
    by_cases h : n / 10 = 0
    · simp only [h, if_true]
      have := (digitChar_spec (n % 10) (Nat.mod_lt _ (by decide))).1
      simp [decodeDigits, this]
      omega
    · simp only [h, if_false]
      rw [toDigitsCore_append, decodeDigits_append, ih (n / 10) (by omega),
        (digitChar_spec (n % 10) (Nat.mod_lt _ (by decide))).1]
      omega

theorem isDigit_toDigitsCore (f : Nat) : ∀ (n : Nat) (c : Char),
    c ∈ Nat.toDigitsCore 10 f n [] → c.isDigit = true := by
  induction f with
  | zero => intro n c h; simp [Nat.toDigitsCore] at h
  | succ f ih =>
    intro n c hc
    simp only [Nat.toDigitsCore] at hc
    have hd := (digitChar_spec (n % 10) (Nat.mod_lt _ (by decide))).2
    by_cases h : n / 10 = 0
    · simp only [h, if_true, List.mem_singleton] at hc
      rw [hc]; exact hd
    · simp only [h, if_false] at hc
      rw [toDigitsCore_append, List.mem_append, List.mem_singleton] at hc
      rcases hc with hc | hc
      · exact ih _ _ hc
      · rw [hc]; exact hd

/-- The decimal text of a number reads back as that number. -/
theorem decodeDigits_repr (n : Nat) : decodeDigits (Nat.repr n).data = n :=
  decodeDigits_toDigitsCore (n + 1) n (Nat.lt_succ_self n)

theorem isDigit_repr (n : Nat) (c : Char) (hc : c ∈ (Nat.repr n).data) : c.isDigit = true :=
  isDigit_toDigitsCore (n + 1) n c hc

theorem repr_injective (a b : Nat) (h : Nat.repr a = Nat.repr b) : a = b := by
  rw [← decodeDigits_repr a, ← decodeDigits_repr b, h]

theorem takeWhile_digits (xs ys : List Char) (hx : ∀ c ∈ xs, c.isDigit = true)
    (hy : ys = [] ∨ ∃ rest, ys = '&' :: rest) :
    (xs ++ ys).takeWhile Char.isDigit = xs := by
  induction xs with
  | nil =>
    rcases hy with rfl | ⟨rest, rfl⟩
    · rfl
    · simp [List.takeWhile]
  | cons x xs ih =>
    have h1 := hx x (List.mem_cons_self _ _)
    simp [List.takeWhile, h1, ih (fun c hc => hx c (List.mem_cons_of_mem _ hc))]

/-- The request of `GetPosts` spelled out: GET, no body, and the URL with
`limit=250` and the page number in decimal. -/
theorem postsRequest_eq (page : Nat) :
    postsRequest page =
      { Method := "GET", URL := "/v2/blog/posts?limit=250&page=" ++ Nat.repr page,
        Body := none } := rfl

theorem postsRequest_injective : Function.Injective postsRequest := by
  intro a b h
  rw [postsRequest_eq, postsRequest_eq] at h
  have hurl : "/v2/blog/posts?limit=250&page=" ++ Nat.repr a =
      "/v2/blog/posts?limit=250&page=" ++ Nat.repr b := congrArg Request.URL h
  have hdata := congrArg String.data hurl
  rw [String.data_append, String.data_append] at hdata
  exact repr_injective a b (String.ext (List.append_cancel_left hdata))

theorem postsTrace_eq (n : Nat) :
    postsTrace n =
      (List.range' 1 n).map (fun j =>
        ({ Method := "GET", URL := "/v2/blog/posts?limit=250&page=" ++ Nat.repr j,
           Body := none } : Request)) := rfl

theorem postsTrace_nodup (n : Nat) : (postsTrace n).Nodup :=
  List.Nodup.map postsRequest_injective (List.nodup_range' 1 n)

/-! ## Count-based pager: completeness -/

/-- C1: when the fetches of pages 1..k all succeed, pages 1..k-1 hold exactly
250 posts each and page k holds fewer than 250, `GetAllPosts` (given fuel for k
iterations) issues exactly k requests, the j-th being GET
`/v2/blog/posts?limit=250&page=j` with j in decimal, for j = 1,...,k in that
order and pairwise distinct, and returns a nil error with the posts of pages
1..k concatenated in page order; the number of posts returned is the sum of the
page sizes. -/
theorem GetAllPosts_complete {T : Types} (env : Env T) (bc : Client) (k : Nat) (hk : 1 ≤ k)
    (hfull : ∀ j, 1 ≤ j → j < k →
      (postsPage env bc j).2.2 = none ∧ (postsPage env bc j).1.length = 250)
    (hlast : (postsPage env bc k).2.2 = none ∧ (postsPage env bc k).1.length < 250)
    (fuel : Nat) (hfuel : k ≤ fuel) :
    GetAllPosts env bc fuel =
        (some (pagesConcat (fun j => (postsPage env bc j).1) k, none),
          (List.range' 1 k).map (fun j =>
            ({ Method := "GET", URL := "/v2/blog/posts?limit=250&page=" ++ Nat.repr j,
               Body := none } : Request))) ∧
      (GetAllPosts env bc fuel).2.Nodup ∧
      (GetAllPosts env bc fuel).2.length = k ∧
      (pagesConcat (fun j => (postsPage env bc j).1) k).length =
        ((List.range' 1 k).map (fun j => (postsPage env bc j).1.length)).sum := by
  have hrun : GetAllPosts env bc fuel =
      (some (pagesConcat (fun j => (postsPage env bc j).1) k, none), postsTrace k) := ?_
  · refine ⟨by rw [hrun, postsTrace_eq], by rw [hrun]; exact postsTrace_nodup k,
      by rw [hrun]; simp [postsTrace], ?_⟩
    simp [pagesConcat, List.length_flatMap, Function.comp_def]
  · obtain ⟨n, rfl⟩ : ∃ n, k = n + 1 := ⟨k - 1, by omega⟩
    obtain ⟨f, rfl⟩ : ∃ f, fuel = n + (f + 1) := ⟨fuel - (n + 1), by omega⟩
    have hgo : ∀ j, 1 ≤ j → j ≤ n →
        (postsPage env bc j).2.2 = none ∧ (postsPage env bc j).2.1 = true := by
      intro j h1 h2
      have hj := hfull j h1 (by omega)
      exact ⟨hj.1, by rw [postsPage_more env bc j hj.1]; simp [hj.2]⟩
    have hstop : (postsPage env bc (n + 1)).2.1 = false := by
      rw [postsPage_more env bc (n + 1) hlast.1]
      simp only [decide_eq_false_iff_not]
      omega
    rw [GetAllPosts, GetAllPostsLoop_unroll env bc (f + 1) 0 n hgo,
      GetAllPostsLoop_last env bc f n _ 0 hlast.1 hstop, pagesConcat_succ]

/-- C1 at the store of 251 posts: two requests, 251 posts, nil error. -/
theorem GetAllPosts_complete_witness :
    GetAllPosts exEnv exClientPosts 2 =
        (some (pagesConcat (fun j => (postsPage exEnv exClientPosts j).1) 2, none),
          (List.range' 1 2).map (fun j =>
            ({ Method := "GET", URL := "/v2/blog/posts?limit=250&page=" ++ Nat.repr j,
               Body := none } : Request))) ∧
      (GetAllPosts exEnv exClientPosts 2).2.Nodup ∧
      (GetAllPosts exEnv exClientPosts 2).2.length = 2 ∧
      (pagesConcat (fun j => (postsPage exEnv exClientPosts j).1) 2).length =
        ((List.range' 1 2).map (fun j => (postsPage exEnv exClientPosts j).1.length)).sum :=
  GetAllPosts_complete exEnv exClientPosts 2 (by decide)
    (fun j h1 h2 => by
      obtain rfl : j = 1 := by omega
      exact ⟨by decide, by decide⟩)
    ⟨by decide, by decide⟩ 2 (Nat.le_refl 2)

/-! ## Lemmas on the products pager -/

theorem GetProducts_trace {T : Types} (env : Env T) (bc : Client) (args : GoMap String)
    (page : Nat) (h : Trace) :
    (GetProducts env bc args page h).2 = h ++ [productsRequest (env.rangeOrder h args) page] := by
  simp only [GetProducts]
  repeat' split
  all_goals rfl

theorem GetProducts_run {T : Types} (env : Env T) (bc : Client) (args : GoMap String) (q : Nat) :
    GetProducts env bc args (q + 1) (productsTrace env args q) =
      (productsPage env bc args (q + 1), productsTrace env args (q + 1)) :=
  Prod.ext (by simp [productsPage]) (GetProducts_trace env bc args (q + 1) _)

theorem productsTrace_length {T : Types} (env : Env T) (args : GoMap String) (n : Nat) :
    (productsTrace env args n).length = n := by
  induction n with
  | zero => rfl
  | succ n ih => simp [productsTrace, ih]

/-- The request of `GetProducts` spelled out: GET, no body, and the URL with
the page number in decimal followed by `&key=value` for every visited entry of
`args`. -/
theorem productsRequest_eq (visited : List (String × String)) (page : Nat) :
    productsRequest visited page =
      { Method := "GET",
        URL := "/v3/catalog/products?page=" ++ Nat.repr page ++
          visited.foldl (fun fpart kv => fpart ++ ("&" ++ kv.1 ++ "=" ++ kv.2)) "",
        Body := none } := rfl

/-- The query part built from `args` is empty or starts with `&`. -/
theorem fpart_data (visited : List (String × String)) : ∀ acc : String,
    ∃ t, (visited.foldl (fun fpart kv => fpart ++ ("&" ++ kv.1 ++ "=" ++ kv.2)) acc).data =
        acc.data ++ t ∧ (t = [] ∨ ∃ rest, t = '&' :: rest) := by
  induction visited with
  | nil => intro acc; exact ⟨[], by simp, Or.inl rfl⟩
  | cons kv rest ih =>
    intro acc
    obtain ⟨t, ht, _⟩ := ih (acc ++ ("&" ++ kv.1 ++ "=" ++ kv.2))
    refine ⟨("&" ++ kv.1 ++ "=" ++ kv.2).data ++ t, ?_, Or.inr ⟨(kv.1 ++ "=" ++ kv.2).data ++ t, ?_⟩⟩
    · rw [List.foldl_cons, ht, String.data_append, List.append_assoc]
    · simp only [String.data_append, List.append_assoc]
      rfl

/-- Two requests of `GetProducts` are equal only for the same page. -/
theorem productsRequest_page_injective (v1 v2 : List (String × String)) (a b : Nat)
    (h : productsRequest v1 a = productsRequest v2 b) : a = b := by
  rw [productsRequest_eq, productsRequest_eq] at h
  have hurl := congrArg (fun r => (Request.URL r).data) h
  simp only [String.data_append, List.append_assoc] at hurl
  have hcut := List.append_cancel_left hurl
  obtain ⟨t1, h1, ht1⟩ := fpart_data v1 ""
  obtain ⟨t2, h2, ht2⟩ := fpart_data v2 ""
  rw [h1, h2] at hcut
  have hw := congrArg (List.takeWhile Char.isDigit) hcut
  have hnil : ("" : String).data = [] := rfl
  simp only [hnil, List.nil_append] at hw
  rw [takeWhile_digits _ _ (isDigit_repr a) ht1, takeWhile_digits _ _ (isDigit_repr b) ht2] at hw
  exact repr_injective a b (String.ext hw)

theorem productsTrace_eq_map {T : Types} (env : Env T) (args : GoMap String) (n : Nat) :
    productsTrace env args n =
      (List.range' 1 n).map
        (fun j => productsRequest (env.rangeOrder (productsTrace env args (j - 1)) args) j) := by
  induction n with
  | zero => rfl
  | succ n ih =>
    rw [productsTrace, List.range'_concat, List.map_append, ← ih]
    simp [Nat.add_comm]

theorem productsTrace_nodup {T : Types} (env : Env T) (args : GoMap String) (n : Nat) :
    (productsTrace env args n).Nodup := by
  rw [productsTrace_eq_map]
  exact List.Nodup.map_on (fun a _ b _ h => productsRequest_page_injective _ _ a b h)
    (List.nodup_range' 1 n)

theorem productsTrace_take {T : Types} (env : Env T) (args : GoMap String) (n j : Nat)
    (hj : j ≤ n) : (productsTrace env args n).take j = productsTrace env args j := by
  induction n with
  | zero =>
    obtain rfl : j = 0 := by omega
    rfl
  | succ n ih =>
    rcases Nat.lt_or_ge j (n + 1) with hlt | hge
    · rw [productsTrace, List.take_append_of_le_length (by rw [productsTrace_length]; omega)]
      exact ih (by omega)
    · obtain rfl : j = n + 1 := by omega
      exact List.take_of_length_le (by rw [productsTrace_length])

/-- The request at position `j` of the products trace, spelled out: it is the
one for page `j + 1`, with `args` in the order the `range` took after the first
`j` requests. -/
theorem productsTrace_request {T : Types} (env : Env T) (args : GoMap String) (n j : Nat)
    (hj : j < n) :
    (productsTrace env args n)[j]? =
      some { Method := "GET",
             URL := "/v3/catalog/products?page=" ++ Nat.repr (j + 1) ++
               (env.rangeOrder ((productsTrace env args n).take j) args).foldl
                 (fun fpart kv => fpart ++ ("&" ++ kv.1 ++ "=" ++ kv.2)) "",
             Body := none } := by
  rw [productsTrace_take env args n j (Nat.le_of_lt hj), ← productsRequest_eq]
  induction n with
  | zero => exact absurd hj (by omega)
  | succ n ih =>
    rcases Nat.lt_or_ge j n with hlt | hge
    · rw [productsTrace, List.getElem?_append_left (by rw [productsTrace_length]; exact hlt)]
      exact ih hlt
    · obtain rfl : j = n := by omega
      rw [productsTrace, List.getElem?_append_right (by rw [productsTrace_length])]
      simp [productsTrace_length]

/-- A served envelope of status 0 is the page that `GetProducts` returns. -/
theorem productsPage_served {T : Types} (env : Env T) (bc : Client) (args : GoMap String)
    (j : Nat) (pp : ProductsPage T.Product) (hs : productsServed env bc args j pp)
    (h0 : pp.Status = 0) :
    productsPage env bc args j =
      (pp.Data, decide (pp.Pagination.CurrentPage < pp.Pagination.TotalPages), none) := by
  obtain ⟨res, body, hdo, hst, hbody, hdec⟩ := hs
  simp [productsPage, GetProducts, hdo, hst, hbody, hdec, h0]

/-- One iteration of the products loop that goes on to the next page. -/
theorem GetAllProductsLoop_next {T : Types} (env : Env T) (bc : Client) (args : GoMap String)
    (fuel q : Nat) (ps : List T.Product) (r : Int)
    (herr : (productsPage env bc args (q + 1)).2.2 = none)
    (hmore : (productsPage env bc args (q + 1)).2.1 = true) :
    GetAllProductsLoop env bc args (fuel + 1) ps (q + 1) r (productsTrace env args q) =
      GetAllProductsLoop env bc args fuel (ps ++ (productsPage env bc args (q + 1)).1) (q + 2) r
        (productsTrace env args (q + 1)) := by
  rw [GetAllProductsLoop, GetProducts_run]
  rcases hpg : productsPage env bc args (q + 1) with ⟨psp, more, err⟩
  rw [hpg] at herr hmore
  simp only at herr hmore
  subst herr hmore
  simp

/-- The iteration of the products loop on a page without successor. -/
theorem GetAllProductsLoop_last {T : Types} (env : Env T) (bc : Client) (args : GoMap String)
    (fuel q : Nat) (ps : List T.Product) (r : Int)
    (herr : (productsPage env bc args (q + 1)).2.2 = none)
    (hmore : (productsPage env bc args (q + 1)).2.1 = false) :
    GetAllProductsLoop env bc args (fuel + 1) ps (q + 1) r (productsTrace env args q) =
      (some (ps ++ (productsPage env bc args (q + 1)).1, none),
        productsTrace env args (q + 1)) := by
  rw [GetAllProductsLoop, GetProducts_run]
  rcases hpg : productsPage env bc args (q + 1) with ⟨psp, more, err⟩
  rw [hpg] at herr hmore
  simp only at herr hmore
  subst herr hmore
  simp

/-- The iteration of the products loop on a failing fetch. -/
theorem GetAllProductsLoop_fail {T : Types} (env : Env T) (bc : Client) (args : GoMap String)
    (fuel q : Nat) (ps : List T.Product) (r : Int) (e : GoError)
    (herr : (productsPage env bc args (q + 1)).2.2 = some e) :
    GetAllProductsLoop env bc args (fuel + 1) ps (q + 1) r (productsTrace env args q) =
      (some (ps, some e), productsTrace env args (q + 1)) := by
  rw [GetAllProductsLoop, GetProducts_run]
  rcases hpg : productsPage env bc args (q + 1) with ⟨psp, more, err⟩
  rw [hpg] at herr
  simp only at herr
  subst herr
  simp

/-- The products loop over `n` pages that all go on to the next page. -/
theorem GetAllProductsLoop_unroll {T : Types} (env : Env T) (bc : Client) (args : GoMap String)
    (fuel : Nat) (r : Int) (n : Nat)
    (hn : ∀ j, 1 ≤ j → j ≤ n →
      (productsPage env bc args j).2.2 = none ∧ (productsPage env bc args j).2.1 = true) :
    GetAllProductsLoop env bc args (n + fuel) [] 1 r [] =
      GetAllProductsLoop env bc args fuel
        (pagesConcat (fun j => (productsPage env bc args j).1) n) (n + 1) r
        (productsTrace env args n) := by
  induction n generalizing fuel with
  | zero => simp [pagesConcat, productsTrace]
  | succ n ih =>
    have h2 := hn (n + 1) (Nat.succ_le_succ (Nat.zero_le n)) (Nat.le_refl _)
    have e : n + 1 + fuel = n + (fuel + 1) := by omega
    rw [e, ih (fuel + 1) (fun j h1 h2 => hn j h1 (Nat.le_succ_of_le h2)),
      GetAllProductsLoop_next env bc args fuel n _ r h2.1 h2.2, pagesConcat_succ]

theorem pagesConcat_congr {α : Type} (f g : Nat → List α) (n : Nat)
    (h : ∀ j, 1 ≤ j → j ≤ n → f j = g j) : pagesConcat f n = pagesConcat g n := by
  induction n with
  | zero => rfl
  | succ n ih =>
    rw [pagesConcat_succ, pagesConcat_succ, ih (fun j h1 h2 => h j h1 (Nat.le_succ_of_le h2)),
      h (n + 1) (Nat.succ_le_succ (Nat.zero_le n)) (Nat.le_refl _)]

/-! ## Meta-based pager: request count -/

/-- C2: when every fetch of a page j in 1..t is served with an envelope of
status 0 whose current_page is j and whose total_pages is t (t >= 1),
`GetAllProducts` (given fuel for t iterations) issues exactly t requests,
pairwise distinct, the one at position j being GET
`/v3/catalog/products?page=j+1` (page number in decimal, followed by the
`&key=value` of `args` in the order the `range` took at that moment), stops
after the answer with current_page = t, and returns a nil error with the data of
the t pages concatenated in page order. -/
theorem GetAllProducts_meta {T : Types} (env : Env T) (bc : Client) (args : GoMap String)
    (t : Nat) (ht : 1 ≤ t) (pages : Nat → ProductsPage T.Product)
    (hserved : ∀ j, 1 ≤ j → j ≤ t →
      productsServed env bc args j (pages j) ∧ (pages j).Status = 0 ∧
        (pages j).Pagination.CurrentPage = j ∧ (pages j).Pagination.TotalPages = t)
    (fuel : Nat) (hfuel : t ≤ fuel) :
    (GetAllProducts env bc args fuel).1 =
        some (pagesConcat (fun j => (pages j).Data) t, none) ∧
      (GetAllProducts env bc args fuel).2.length = t ∧
      (GetAllProducts env bc args fuel).2.Nodup ∧
      ∀ j, j < t →
        (GetAllProducts env bc args fuel).2[j]? =
          some { Method := "GET",
                 URL := "/v3/catalog/products?page=" ++ Nat.repr (j + 1) ++
                   (env.rangeOrder ((GetAllProducts env bc args fuel).2.take j) args).foldl
                     (fun fpart kv => fpart ++ ("&" ++ kv.1 ++ "=" ++ kv.2)) "",
                 Body := none } := by
  have hrun : GetAllProducts env bc args fuel =
      (some (pagesConcat (fun j => (pages j).Data) t, none), productsTrace env args t) := ?_
  · rw [hrun]
    exact ⟨rfl, productsTrace_length env args t, productsTrace_nodup env args t,
      productsTrace_request env args t⟩
  have hpage : ∀ j, 1 ≤ j → j ≤ t →
      productsPage env bc args j = ((pages j).Data, decide (j < t), none) := by
    intro j h1 h2
    obtain ⟨hs, h0, hc, ht⟩ := hserved j h1 h2
    rw [productsPage_served env bc args j (pages j) hs h0, hc, ht]
    simp
  obtain ⟨n, rfl⟩ : ∃ n, t = n + 1 := ⟨t - 1, by omega⟩
  obtain ⟨f, rfl⟩ : ∃ f, fuel = n + (f + 1) := ⟨fuel - (n + 1), by omega⟩
  have hgo : ∀ j, 1 ≤ j → j ≤ n →
      (productsPage env bc args j).2.2 = none ∧ (productsPage env bc args j).2.1 = true := by
    intro j h1 h2
    rw [hpage j h1 (by omega)]
    exact ⟨rfl, by simp; omega⟩
  have hlast := hpage (n + 1) (by omega) (Nat.le_refl _)
  rw [GetAllProducts, GetAllProductsLoop_unroll env bc args (f + 1) 0 n hgo,
    GetAllProductsLoop_last env bc args f n _ 0 (by rw [hlast]) (by rw [hlast]; simp),
    ← pagesConcat_succ]
  rw [pagesConcat_congr _ (fun j => (pages j).Data) (n + 1)
    (fun j h1 h2 => by simp only [hpage j h1 h2])]

/-- C2 at total_pages = 3: exactly three requests, five products, nil error. -/
theorem GetAllProducts_meta_witness :
    (GetAllProducts exEnv exClientProducts [] 3).1 =
        some (pagesConcat (fun j => (exPages j).Data) 3, none) ∧
      (GetAllProducts exEnv exClientProducts [] 3).2.length = 3 ∧
      (GetAllProducts exEnv exClientProducts [] 3).2.Nodup ∧
      ∀ j, j < 3 →
        (GetAllProducts exEnv exClientProducts [] 3).2[j]? =
          some { Method := "GET",
                 URL := "/v3/catalog/products?page=" ++ Nat.repr (j + 1) ++
                   (exEnv.rangeOrder ((GetAllProducts exEnv exClientProducts [] 3).2.take j)
                     []).foldl
                     (fun fpart kv => fpart ++ ("&" ++ kv.1 ++ "=" ++ kv.2)) "",
                 Body := none } :=
  GetAllProducts_meta exEnv exClientProducts [] 3 (by decide) exPages
    (fun j h1 h2 => by
      have hj : j = 1 ∨ j = 2 ∨ j = 3 := by omega
      rcases hj with rfl | rfl | rfl
      · exact ⟨⟨⟨200, .ok "page 1 of 3"⟩, "page 1 of 3", rfl, by decide, rfl, rfl⟩, rfl, rfl, rfl⟩
      · exact ⟨⟨⟨200, .ok "page 2 of 3"⟩, "page 2 of 3", rfl, by decide, rfl, rfl⟩, rfl, rfl, rfl⟩
      · exact ⟨⟨⟨200, .ok "page 3 of 3"⟩, "page 3 of 3", rfl, by decide, rfl, rfl⟩, rfl, rfl, rfl⟩)
    3 (Nat.le_refl 3)

/-! ## Failures and partial results -/

/-- The posts pager on a run whose first `n` pages go on and whose page `n + 1`
fails. -/
theorem GetAllPosts_fail_at {T : Types} (env : Env T) (bc : Client) (n : Nat) (e : GoError)
    (hgo : ∀ j, 1 ≤ j → j ≤ n →
      (postsPage env bc j).2.2 = none ∧ (postsPage env bc j).2.1 = true)
    (hfail : (postsPage env bc (n + 1)).2.2 = some e) (fuel : Nat) (hfuel : n + 1 ≤ fuel) :
    GetAllPosts env bc fuel =
      (some (pagesConcat (fun j => (postsPage env bc j).1) n,
          some (if (0 : Int) + 1 > bc.MaxRetries then GoError.new "max retries reached" else e)),
        postsTrace (n + 1)) := by
  obtain ⟨f, rfl⟩ : ∃ f, fuel = n + (f + 1) := ⟨fuel - (n + 1), by omega⟩
  rw [GetAllPosts, GetAllPostsLoop_unroll env bc (f + 1) 0 n hgo,
    GetAllPostsLoop_fail env bc f n _ 0 e hfail]

/-- The products pager on a run whose first `n` pages go on and whose page
`n + 1` fails. -/
theorem GetAllProducts_fail_at {T : Types} (env : Env T) (bc : Client) (args : GoMap String)
    (n : Nat) (e : GoError)
    (hgo : ∀ j, 1 ≤ j → j ≤ n →
      (productsPage env bc args j).2.2 = none ∧ (productsPage env bc args j).2.1 = true)
    (hfail : (productsPage env bc args (n + 1)).2.2 = some e) (fuel : Nat)
    (hfuel : n + 1 ≤ fuel) :
    GetAllProducts env bc args fuel =
      (some (pagesConcat (fun j => (productsPage env bc args j).1) n, some e),
        productsTrace env args (n + 1)) := by
  obtain ⟨f, rfl⟩ : ∃ f, fuel = n + (f + 1) := ⟨fuel - (n + 1), by omega⟩
  rw [GetAllProducts, GetAllProductsLoop_unroll env bc args (f + 1) 0 n hgo,
    GetAllProductsLoop_fail env bc args f n _ 0 e hfail]

/-- C3: for both pagers, whatever MaxRetries is: when the fetches of pages
1..k-1 succeed with hasMore = true and the fetch of page k fails (k >= 1), the
call (given fuel for k iterations) returns a non-nil error together with
exactly the items of pages 1..k-1 concatenated in page order (none when
k = 1). -/
theorem GetAll_partial_results {T : Types} (env : Env T) (bc : Client) (args : GoMap String)
    (k : Nat) (hk : 1 ≤ k) (fuel : Nat) (hfuel : k ≤ fuel) :
    ((∀ j, 1 ≤ j → j < k →
          (postsPage env bc j).2.2 = none ∧ (postsPage env bc j).2.1 = true) →
        (postsPage env bc k).2.2 ≠ none →
        ∃ e, (GetAllPosts env bc fuel).1 =
          some (pagesConcat (fun j => (postsPage env bc j).1) (k - 1), some e)) ∧
      ((∀ j, 1 ≤ j → j < k →
          (productsPage env bc args j).2.2 = none ∧ (productsPage env bc args j).2.1 = true) →
        (productsPage env bc args k).2.2 ≠ none →
        ∃ e, (GetAllProducts env bc args fuel).1 =
          some (pagesConcat (fun j => (productsPage env bc args j).1) (k - 1), some e)) := by
  obtain ⟨n, rfl⟩ : ∃ n, k = n + 1 := ⟨k - 1, by omega⟩
  constructor
  · intro hgo hfail
    obtain ⟨e, he⟩ := Option.ne_none_iff_exists'.mp hfail
    rw [GetAllPosts_fail_at env bc n e (fun j h1 h2 => hgo j h1 (by omega)) he fuel hfuel]
    exact ⟨_, rfl⟩
  · intro hgo hfail
    obtain ⟨e, he⟩ := Option.ne_none_iff_exists'.mp hfail
    rw [GetAllProducts_fail_at env bc args n e (fun j h1 h2 => hgo j h1 (by omega)) he fuel
      hfuel]
    exact ⟨_, rfl⟩

/-- C3 at a posts store cut after one full page and a catalogue answering 204
on page 2: both calls keep page 1 and return an error. -/
theorem GetAll_partial_results_witness :
    (∃ e, (GetAllPosts exEnv exClientPostsCut 2).1 =
        some (pagesConcat (fun j => (postsPage exEnv exClientPostsCut j).1) (2 - 1), some e)) ∧
      (∃ e, (GetAllProducts exEnv exClientNoContent [] 2).1 =
        some (pagesConcat (fun j => (productsPage exEnv exClientNoContent [] j).1) (2 - 1),
          some e)) :=
  have h := GetAll_partial_results exEnv exClientPostsCut [] 2 (by decide) 2 (Nat.le_refl 2)
  have h2 := GetAll_partial_results exEnv exClientNoContent [] 2 (by decide) 2 (Nat.le_refl 2)
  ⟨h.1 (fun j h1 h2 => by
      obtain rfl : j = 1 := by omega
      exact ⟨by decide, by decide⟩) (by decide),
    h2.2 (fun j h1 h2 => by
      obtain rfl : j = 1 := by omega
      exact ⟨by decide, by decide⟩) (by decide)⟩

/-! ## Retry exhaustion -/

/-- C4, amended: in the `GetAllPosts` loop, when the page fetch fails and the
incremented retry counter exceeds MaxRetries, the call returns the accumulator
collected so far with the failure "max retries reached" (first part: from any
loop state; second part: for a call whose pages 1..k-1 went on and whose page k
fails); in particular (third part) when every fetch fails and MaxRetries is
below 1, the call returns that failure with the empty accumulator, after the
single request for page 1. -/
theorem GetAllPosts_max_retries {T : Types} (env : Env T) (bc : Client) :
    (∀ (fuel : Nat) (cs : List T.Post) (page : Nat) (retries : Int) (h : Trace),
        (GetPosts env bc page h).1.2.2 ≠ none → retries + 1 > bc.MaxRetries →
        (GetAllPostsLoop env bc (fuel + 1) cs page retries h).1 =
          some (cs, some (GoError.new "max retries reached"))) ∧
      (∀ (k fuel : Nat), 1 ≤ k → k ≤ fuel →
        (∀ j, 1 ≤ j → j < k →
          (postsPage env bc j).2.2 = none ∧ (postsPage env bc j).2.1 = true) →
        (postsPage env bc k).2.2 ≠ none → (0 : Int) + 1 > bc.MaxRetries →
        GetAllPosts env bc fuel =
          (some (pagesConcat (fun j => (postsPage env bc j).1) (k - 1),
              some (GoError.new "max retries reached")),
            (List.range' 1 k).map (fun j =>
              ({ Method := "GET", URL := "/v2/blog/posts?limit=250&page=" ++ Nat.repr j,
                 Body := none } : Request)))) ∧
      (∀ fuel : Nat, 1 ≤ fuel →
        (∀ page h, (GetPosts env bc page h).1.2.2 ≠ none) → (0 : Int) + 1 > bc.MaxRetries →
        GetAllPosts env bc fuel =
          (some ([], some (GoError.new "max retries reached")),
            [{ Method := "GET", URL := "/v2/blog/posts?limit=250&page=1", Body := none }])) := by
  have key : ∀ (k fuel : Nat), 1 ≤ k → k ≤ fuel →
      (∀ j, 1 ≤ j → j < k →
        (postsPage env bc j).2.2 = none ∧ (postsPage env bc j).2.1 = true) →
      (postsPage env bc k).2.2 ≠ none → (0 : Int) + 1 > bc.MaxRetries →
      GetAllPosts env bc fuel =
        (some (pagesConcat (fun j => (postsPage env bc j).1) (k - 1),
            some (GoError.new "max retries reached")),
          (List.range' 1 k).map (fun j =>
              ({ Method := "GET", URL := "/v2/blog/posts?limit=250&page=" ++ Nat.repr j,
                 Body := none } : Request))) := by
    intro k fuel hk hfuel hgo hfail hmax
    obtain ⟨n, rfl⟩ : ∃ n, k = n + 1 := ⟨k - 1, by omega⟩
    obtain ⟨e, he⟩ := Option.ne_none_iff_exists'.mp hfail
    rw [GetAllPosts_fail_at env bc n e (fun j h1 h2 => hgo j h1 (by omega)) he fuel hfuel,
      if_pos hmax]
    rfl
  refine ⟨?_, key, ?_⟩
  · intro fuel cs page retries h hfail hmax
    rw [GetAllPostsLoop]
    rcases hpg : GetPosts env bc page h with ⟨⟨csp, more, err⟩, h1⟩
    rw [hpg] at hfail
    obtain ⟨e, rfl⟩ := Option.ne_none_iff_exists'.mp hfail
    simp [hmax]
  · intro fuel hfuel hall hmax
    exact key 1 fuel (Nat.le_refl 1) hfuel (fun j h1 h2 => absurd h2 (by omega))
      (hall 1 _) hmax

/-- C4, amended, at clients with MaxRetries = 0: a transport that is down, and a store cut
after one full page. -/
theorem GetAllPosts_max_retries_witness :
    GetAllPosts exEnv exClientDown 1 =
        (some ([], some (GoError.new "max retries reached")),
          [{ Method := "GET", URL := "/v2/blog/posts?limit=250&page=1", Body := none }]) ∧
      GetAllPosts exEnv exClientPostsCutNoRetry 2 =
        (some (pagesConcat (fun j => (postsPage exEnv exClientPostsCutNoRetry j).1) (2 - 1),
            some (GoError.new "max retries reached")),
          (List.range' 1 2).map (fun j =>
            ({ Method := "GET", URL := "/v2/blog/posts?limit=250&page=" ++ Nat.repr j,
               Body := none } : Request))) :=
  ⟨(GetAllPosts_max_retries exEnv exClientDown).2.2 1 (Nat.le_refl 1)
      (fun page h => by simp [GetPosts, exClientDown, exServe]) (by decide),
    (GetAllPosts_max_retries exEnv exClientPostsCutNoRetry).2.1 2 2 (by decide) (Nat.le_refl 2)
      (fun j h1 h2 => by
        obtain rfl : j = 1 := by omega
        exact ⟨by decide, by decide⟩) (by decide) (by decide)⟩

/-- C4, as stated, fails at a transport that is down with MaxRetries = 3: every
page fetch fails, yet `GetAllPosts` returns the error of the fetch,
"connection refused", after its single request, and not the "max retries
reached" failure: the counter only goes from 0 to 1, which does not exceed 3. -/
theorem GetAllPosts_max_retries_counterexample :
    (∀ (page : Nat) (h : Trace), (GetPosts exEnv exClientDownRetry page h).1.2.2 ≠ none) ∧
      GetAllPosts exEnv exClientDownRetry 5 =
        (some ([], some (GoError.new "connection refused")),
          [{ Method := "GET", URL := "/v2/blog/posts?limit=250&page=1", Body := none }]) ∧
      (GetAllPosts exEnv exClientDownRetry 5).1 ≠
        some ([], some (GoError.new "max retries reached")) :=
  ⟨fun page h => by simp [GetPosts, exClientDownRetry, exServe], by decide, by decide⟩

/-- C5: evaluation at a transport that is down with MaxRetries = 0. The page
fetch fails and the incremented counter 1 exceeds MaxRetries; `GetAllProducts`
returns the transport's own error "connection refused" and not a "max retries
reached" failure, whereas `GetAllPosts` at the same client, in the same branch,
returns "max retries reached". -/
theorem GetAllProducts_max_retries_eval :
    (productsPage exEnv exClientDown [] 1).2.2 = some (GoError.new "connection refused") ∧
      (0 : Int) + 1 > exClientDown.MaxRetries ∧
      GetAllProducts exEnv exClientDown [] 1 =
        (some ([], some (GoError.new "connection refused")),
          [{ Method := "GET", URL := "/v3/catalog/products?page=1", Body := none }]) ∧
      (GetAllProducts exEnv exClientDown [] 1).1 ≠
        some ([], some (GoError.new "max retries reached")) ∧
      (GetAllPosts exEnv exClientDown 1).1 =
        some ([], some (GoError.new "max retries reached")) := by
  decide

/-! ## Validation errors of the create calls -/

theorem collectErrors_eq (visited : List (String × String)) :
    collectErrors visited = visited.map Prod.snd := by
  have h : ∀ (acc : List String),
      visited.foldl (fun errors e => errors ++ [e.2]) acc = acc ++ visited.map Prod.snd := by
    induction visited with
    | nil => intro acc; simp
    | cons e rest ih => intro acc; simp [ih]
  simpa [collectErrors] using h []

/-- The 422 branch turns a decoded `errors` object into the normalised failure. -/
theorem validationError_normalised {T : Types} (env : Env T) (h : Trace) (body : String)
    (errResp : ErrorResult) (hdec : env.unmarshalErrorResult body = .ok errResp)
    (hperm : (env.rangeOrder h errResp.Errors).Perm errResp.Errors) :
    normalisedFailure errResp.Errors (some (validationError env h body)) := by
  simp only [validationError, hdec, collectErrors_eq, Join]
  refine ⟨?_, ?_, ?_⟩
  · intro k v hkv
    rw [hkv] at hperm ⊢
    rw [List.perm_singleton.mp hperm]
    simp [GoMap.len]
    rfl
  · intro h2
    have hpos : errResp.Errors.len > 0 := by omega
    rw [if_pos hpos]
    exact ⟨_, hperm.map Prod.snd, rfl⟩
  · intro hnil
    simp [hnil, GoMap.len]

/-- C6: in `CreatePost` and in `CreateProduct`, when the response has status
422, `processBody` reports a failure while handing back the body and the body
decodes to an `errors` object, no Post / Product is returned and the failure is:
(a) exactly the value of the only entry when there is one entry, (b) the n
values, each once, in some order, joined by ", " when there are n >= 2
entries, (c) exactly "unknown error" when the object is empty or absent. -/
theorem Create_validation_error {T : Types} (env : Env T) (bc : Client) :
    (∀ (payload : T.CreatePostPayload) (h : Trace) (errResp : ErrorResult),
        validationFailure env bc h
          (getAPIRequest "POST" "/v2/blog/posts" (some (env.marshalPostPayloads [payload])))
          errResp →
        (CreatePost env bc payload h).1.1 = none ∧
          normalisedFailure errResp.Errors (CreatePost env bc payload h).1.2) ∧
      (∀ (payload : T.CreateProductPayload) (h : Trace) (errResp : ErrorResult),
        validationFailure env bc h
          (getAPIRequest "POST" "/v3/catalog/products"
            (some (env.marshalProductPayloads [payload])))
          errResp →
        (CreateProduct env bc payload h).1.1 = none ∧
          normalisedFailure errResp.Errors (CreateProduct env bc payload h).1.2) := by
  constructor
  · rintro payload h errResp ⟨res, body, perr, hdo, hst, hpb, hdec, hperm⟩
    have hv := validationError_normalised env _ body errResp hdec hperm
    simp only [CreatePost, hdo, hpb, hst, if_true]
    exact ⟨trivial, hv⟩
  · rintro payload h errResp ⟨res, body, perr, hdo, hst, hpb, hdec, hperm⟩
    have hv := validationError_normalised env _ body errResp hdec hperm
    simp only [CreateProduct, hdo, hpb, hst, if_true]
    exact ⟨trivial, hv⟩

/-- C6 at the body `{"errors": {"title": "is required"}}` for a post and at a
body with two entries for a product. -/
theorem Create_validation_error_witness :
    ((CreatePost exEnv (exClientInvalid "title is required") "post" []).1.1 = none ∧
        normalisedFailure [("title", "is required")]
          (CreatePost exEnv (exClientInvalid "title is required") "post" []).1.2) ∧
      ((CreateProduct exEnv (exClientInvalid "title and body") "product" []).1.1 = none ∧
        normalisedFailure [("title", "is required"), ("body", "is empty")]
          (CreateProduct exEnv (exClientInvalid "title and body") "product" []).1.2) :=
  ⟨(Create_validation_error exEnv (exClientInvalid "title is required")).1 "post" []
      ⟨[("title", "is required")]⟩
      ⟨⟨422, .ok "title is required"⟩, "title is required", GoError.new "request failed",
        rfl, rfl, rfl, rfl, List.Perm.refl _⟩,
    (Create_validation_error exEnv (exClientInvalid "title and body")).2 "product" []
      ⟨[("title", "is required"), ("body", "is empty")]⟩
      ⟨⟨422, .ok "title and body"⟩, "title and body", GoError.new "request failed",
        rfl, rfl, rfl, rfl, List.Perm.refl _⟩⟩

/-! ## Metafield index -/

theorem GoMap.set_of_not_mem {V : Type} (m : GoMap V) (k : String) (v : V)
    (hk : k ∉ m.keys) : m.set k v = m ++ [(k, v)] := by
  induction m with
  | nil => rfl
  | cons e rest ih =>
    obtain ⟨k1, v1⟩ := e
    simp only [GoMap.keys, List.map_cons, List.mem_cons, not_or] at hk
    have hne : ¬ k1 = k := fun h => hk.1 h.symm
    simp only [GoMap.set, hne, if_false, List.cons_append]
    rw [ih hk.2]

/-- With pairwise distinct keys the index holds the records in list order,
each under its key. -/
theorem foldl_set_of_nodup {Time : Type} (metafields : List (Metafield Time)) :
    ∀ acc : GoMap (Metafield Time),
      (acc.keys ++ metafields.map (fun mf => mf.Key)).Nodup →
      metafields.foldl (fun ret mf => GoMap.set ret mf.Key mf) acc =
        acc ++ metafields.map (fun mf => (mf.Key, mf)) := by
  induction metafields with
  | nil => intro acc _; simp
  | cons mf rest ih =>
    intro acc hnd
    have hmf : mf.Key ∉ acc.keys := by
      intro hin
      rw [List.nodup_append] at hnd
      exact hnd.2.2 hin (List.mem_cons_self _ _)
    rw [List.foldl_cons, GoMap.set_of_not_mem acc mf.Key mf hmf, ih]
    · simp
    · simpa [GoMap.keys, List.append_assoc] using hnd

theorem indexMetafields_of_nodup {Time : Type} (metafields : List (Metafield Time))
    (hkeys : (metafields.map (fun mf => mf.Key)).Nodup) :
    indexMetafields metafields = metafields.map (fun mf => (mf.Key, mf)) := by
  have h := foldl_set_of_nodup metafields [] (by simpa [GoMap.keys] using hkeys)
  simpa [indexMetafields] using h

theorem GoMap.get_map_of_nodup {Time : Type} (metafields : List (Metafield Time))
    (hkeys : (metafields.map (fun mf => mf.Key)).Nodup) (mf : Metafield Time)
    (hmf : mf ∈ metafields) :
    GoMap.get (metafields.map (fun mf => (mf.Key, mf))) mf.Key = some mf := by
  induction metafields with
  | nil => cases hmf
  | cons m rest ih =>
    rw [List.map_cons, List.nodup_cons] at hkeys
    rcases List.mem_cons.mp hmf with rfl | hin
    · simp [GoMap.get]
    · have hne : ¬ m.Key = mf.Key := by
        intro he
        exact hkeys.1 (he ▸ List.mem_map_of_mem (fun mf => mf.Key) hin)
      simp only [List.map_cons, GoMap.get, hne, if_false]
      exact ih hkeys.2 hin

/-- C7: when the metafields response decodes to a list with pairwise distinct
keys, `GetProductMetafields` returns, with a nil error, a mapping that has as
many entries as the list has elements, whose keys are pairwise distinct and are
exactly the keys of the list, and in which every key maps to the record that
carried it; for the empty list the mapping is empty. -/
theorem GetProductMetafields_index {T : Types} (env : Env T) (bc : Client) (productID : Int)
    (h : Trace) (res : Response) (body : String) (metafields : List (Metafield T.Time))
    (hdo : bc.Do h (metafieldsRequest productID) = .ok res)
    (hpb : env.processBody res = (body, none))
    (hdec : env.unmarshalMetafields body = .ok metafields)
    (hkeys : (metafields.map (fun mf => mf.Key)).Nodup) :
    ∃ ret : GoMap (Metafield T.Time),
      (GetProductMetafields env bc productID h).1 = (some ret, none) ∧
        ret.len = metafields.length ∧ ret.keys.Nodup ∧
        (∀ k, k ∈ ret.keys ↔ k ∈ metafields.map (fun mf => mf.Key)) ∧
        (∀ mf ∈ metafields, ret.get mf.Key = some mf) ∧
        (metafields = [] → ret = []) := by
  refine ⟨indexMetafields metafields, ?_, ?_⟩
  · simp only [GetProductMetafields, hdo, hpb, hdec]
  · rw [indexMetafields_of_nodup metafields hkeys]
    have hk : GoMap.keys (metafields.map (fun mf => (mf.Key, mf))) =
        metafields.map (fun mf => mf.Key) := by
      simp [GoMap.keys, Function.comp_def]
    refine ⟨by simp [GoMap.len], by rw [hk]; exact hkeys, fun k => by rw [hk],
      fun mf hmf => GoMap.get_map_of_nodup metafields hkeys mf hmf, fun hnil => by simp [hnil]⟩

/-- C7 at the list with the keys color and size: a mapping of 2 entries. -/
theorem GetProductMetafields_index_witness :
    ∃ ret : GoMap (Metafield String),
      (GetProductMetafields exEnv (exClientOK "color and size") 12 []).1 = (some ret, none) ∧
        ret.len = [exMetafield "color" "red", exMetafield "size" "M"].length ∧
        ret.keys.Nodup ∧
        (∀ k, k ∈ ret.keys ↔
          k ∈ [exMetafield "color" "red", exMetafield "size" "M"].map (fun mf => mf.Key)) ∧
        (∀ mf ∈ [exMetafield "color" "red", exMetafield "size" "M"],
          ret.get mf.Key = some mf) ∧
        ([exMetafield "color" "red", exMetafield "size" "M"] = [] → ret = []) :=
  GetProductMetafields_index exEnv (exClientOK "color and size") 12 []
    ⟨200, .ok "color and size"⟩ "color and size"
    [exMetafield "color" "red", exMetafield "size" "M"] rfl rfl rfl (by decide)

/-! ## No content -/

/-- C8: `GetProducts` answers a response of status 204 (whatever its body)
with no items, hasMore = false and the `ErrNoContent` failure; and
`GetAllProducts`, when pages 1..k-1 went on and page k is answered with 204,
returns (given fuel for k iterations) a non-nil error with the items of pages
1..k-1. -/
theorem GetProducts_no_content {T : Types} (env : Env T) (bc : Client) (args : GoMap String) :
    (∀ (page : Nat) (h : Trace) (res : Response),
        bc.Do h (productsRequest (env.rangeOrder h args) page) = .ok res →
        res.StatusCode = 204 →
        (GetProducts env bc args page h).1 = ([], false, some GoError.ErrNoContent)) ∧
      (∀ (k fuel : Nat) (res : Response), 1 ≤ k → k ≤ fuel →
        (∀ j, 1 ≤ j → j < k →
          (productsPage env bc args j).2.2 = none ∧ (productsPage env bc args j).2.1 = true) →
        bc.Do (productsTrace env args (k - 1))
          (productsRequest (env.rangeOrder (productsTrace env args (k - 1)) args) k) = .ok res →
        res.StatusCode = 204 →
        ∃ e, (GetAllProducts env bc args fuel).1 =
          some (pagesConcat (fun j => (productsPage env bc args j).1) (k - 1), some e)) := by
  have hpage : ∀ (page : Nat) (h : Trace) (res : Response),
      bc.Do h (productsRequest (env.rangeOrder h args) page) = .ok res →
      res.StatusCode = 204 →
      (GetProducts env bc args page h).1 = ([], false, some GoError.ErrNoContent) := by
    intro page h res hdo hst
    simp only [GetProducts, hdo, hst, if_true]
  refine ⟨hpage, ?_⟩
  intro k fuel res hk hfuel hgo hdo hst
  obtain ⟨n, rfl⟩ : ∃ n, k = n + 1 := ⟨k - 1, by omega⟩
  have hfail : (productsPage env bc args (n + 1)).2.2 = some GoError.ErrNoContent := by
    rw [productsPage, hpage (n + 1) _ res hdo hst]
  rw [GetAllProducts_fail_at env bc args n _ (fun j h1 h2 => hgo j h1 (by omega)) hfail fuel
    hfuel]
  exact ⟨_, rfl⟩

/-- C8 at the catalogue that answers 204 on page 2. -/
theorem GetProducts_no_content_witness :
    (GetProducts exEnv exClientNoContent [] 2 [productsRequest [] 1]).1 =
        ([], false, some GoError.ErrNoContent) ∧
      ∃ e, (GetAllProducts exEnv exClientNoContent [] 2).1 =
        some (pagesConcat (fun j => (productsPage exEnv exClientNoContent [] j).1) (2 - 1),
          some e) :=
  ⟨(GetProducts_no_content exEnv exClientNoContent []).1 2 [productsRequest [] 1]
      ⟨204, .ok "ignored"⟩ rfl rfl,
    (GetProducts_no_content exEnv exClientNoContent []).2 2 2 ⟨204, .ok "ignored"⟩
      (by decide) (Nat.le_refl 2)
      (fun j h1 h2 => by
        obtain rfl : j = 1 := by omega
        exact ⟨by decide, by decide⟩) rfl rfl⟩

/-! ## Order of the requests -/

/-- The posts loop entered at page `q + 1` after the pages `1..q` went on issues
the requests of pages `1..n` for some `n` between `q` and `q + fuel`, and every
page before `n` went on. -/
theorem GetAllPostsLoop_requests {T : Types} (env : Env T) (bc : Client) (r : Int) :
    ∀ (fuel q : Nat) (cs : List T.Post),
      (∀ j, 1 ≤ j → j ≤ q →
        (postsPage env bc j).2.2 = none ∧ (postsPage env bc j).2.1 = true) →
      ∃ n, q ≤ n ∧ n ≤ q + fuel ∧ (1 ≤ fuel → q + 1 ≤ n) ∧
        (GetAllPostsLoop env bc fuel cs (q + 1) r (postsTrace q)).2 = postsTrace n ∧
        ∀ j, 1 ≤ j → j < n →
          (postsPage env bc j).2.2 = none ∧ (postsPage env bc j).2.1 = true := by
  intro fuel
  induction fuel with
  | zero =>
    intro q cs hq
    exact ⟨q, Nat.le_refl q, Nat.le_refl q, fun h => absurd h (by omega), rfl,
      fun j h1 h2 => hq j h1 (Nat.le_of_lt h2)⟩
  | succ f ih =>
    intro q cs hq
    have hbelow : ∀ j, 1 ≤ j → j < q + 1 →
        (postsPage env bc j).2.2 = none ∧ (postsPage env bc j).2.1 = true :=
      fun j h1 h2 => hq j h1 (by omega)
    cases herr : (postsPage env bc (q + 1)).2.2 with
    | some e =>
      rw [GetAllPostsLoop_fail env bc f q cs r e herr]
      exact ⟨q + 1, by omega, by omega, fun _ => Nat.le_refl _, rfl, hbelow⟩
    | none =>
      cases hmore : (postsPage env bc (q + 1)).2.1 with
      | false =>
        rw [GetAllPostsLoop_last env bc f q cs r herr hmore]
        exact ⟨q + 1, by omega, by omega, fun _ => Nat.le_refl _, rfl, hbelow⟩
      | true =>
        rw [GetAllPostsLoop_next env bc f q cs r herr hmore]
        obtain ⟨n, h1, h2, _, h4, h5⟩ := ih (q + 1) (cs ++ (postsPage env bc (q + 1)).1)
          (fun j h1 h2 => by
            rcases Nat.lt_or_ge j (q + 1) with hlt | hge
            · exact hbelow j h1 hlt
            · obtain rfl : j = q + 1 := by omega
              exact ⟨herr, hmore⟩)
        exact ⟨n, by omega, by omega, fun _ => h1, h4, h5⟩

/-- The products loop entered at page `q + 1` after the pages `1..q` went on
issues the requests of pages `1..n` for some `n` between `q` and `q + fuel`, and
every page before `n` went on. -/
theorem GetAllProductsLoop_requests {T : Types} (env : Env T) (bc : Client)
    (args : GoMap String) (r : Int) :
    ∀ (fuel q : Nat) (ps : List T.Product),
      (∀ j, 1 ≤ j → j ≤ q →
        (productsPage env bc args j).2.2 = none ∧ (productsPage env bc args j).2.1 = true) →
      ∃ n, q ≤ n ∧ n ≤ q + fuel ∧ (1 ≤ fuel → q + 1 ≤ n) ∧
        (GetAllProductsLoop env bc args fuel ps (q + 1) r (productsTrace env args q)).2 =
          productsTrace env args n ∧
        ∀ j, 1 ≤ j → j < n →
          (productsPage env bc args j).2.2 = none ∧
            (productsPage env bc args j).2.1 = true := by
  intro fuel
  induction fuel with
  | zero =>
    intro q ps hq
    exact ⟨q, Nat.le_refl q, Nat.le_refl q, fun h => absurd h (by omega), rfl,
      fun j h1 h2 => hq j h1 (Nat.le_of_lt h2)⟩
  | succ f ih =>
    intro q ps hq
    have hbelow : ∀ j, 1 ≤ j → j < q + 1 →
        (productsPage env bc args j).2.2 = none ∧
          (productsPage env bc args j).2.1 = true :=
      fun j h1 h2 => hq j h1 (by omega)
    cases herr : (productsPage env bc args (q + 1)).2.2 with
    | some e =>
      rw [GetAllProductsLoop_fail env bc args f q ps r e herr]
      exact ⟨q + 1, by omega, by omega, fun _ => Nat.le_refl _, rfl, hbelow⟩
    | none =>
      cases hmore : (productsPage env bc args (q + 1)).2.1 with
      | false =>
        rw [GetAllProductsLoop_last env bc args f q ps r herr hmore]
        exact ⟨q + 1, by omega, by omega, fun _ => Nat.le_refl _, rfl, hbelow⟩
      | true =>
        rw [GetAllProductsLoop_next env bc args f q ps r herr hmore]
        obtain ⟨n, h1, h2, _, h4, h5⟩ := ih (q + 1) (ps ++ (productsPage env bc args (q + 1)).1)
          (fun j h1 h2 => by
            rcases Nat.lt_or_ge j (q + 1) with hlt | hge
            · exact hbelow j h1 hlt
            · obtain rfl : j = q + 1 := by omega
              exact ⟨herr, hmore⟩)
        exact ⟨n, by omega, by omega, fun _ => h1, h4, h5⟩

/-- C9: in one call of `GetAllPosts` and of `GetAllProducts`, whatever
MaxRetries is and however long the call runs (`fuel` iterations), the requests
issued are n requests, the j-th carrying `page=j` in decimal in its URL
(`/v2/blog/posts?limit=250&page=j`, resp. `/v3/catalog/products?page=j`
followed by the `args`), for j = 1, 2, ..., n in that order; they are pairwise
distinct, so no page is requested twice; every page before the last requested
one was fetched without error; and when the last requested page failed, running
the call longer issues no further request and changes nothing in its outcome. -/
theorem GetAll_no_page_retried {T : Types} (env : Env T) (bc : Client) (args : GoMap String)
    (fuel : Nat) :
    (∃ n, n ≤ fuel ∧
        (GetAllPosts env bc fuel).2 =
          (List.range' 1 n).map (fun j =>
            ({ Method := "GET", URL := "/v2/blog/posts?limit=250&page=" ++ Nat.repr j,
               Body := none } : Request)) ∧
        (GetAllPosts env bc fuel).2.Nodup ∧
        (∀ j, 1 ≤ j → j < n → (postsPage env bc j).2.2 = none) ∧
        (1 ≤ n → (postsPage env bc n).2.2 ≠ none →
          ∀ fuel2, fuel ≤ fuel2 → GetAllPosts env bc fuel2 = GetAllPosts env bc fuel)) ∧
      (∃ n, n ≤ fuel ∧ (GetAllProducts env bc args fuel).2.length = n ∧
        (∀ j, j < n →
          (GetAllProducts env bc args fuel).2[j]? =
            some { Method := "GET",
                   URL := "/v3/catalog/products?page=" ++ Nat.repr (j + 1) ++
                     (env.rangeOrder ((GetAllProducts env bc args fuel).2.take j) args).foldl
                       (fun fpart kv => fpart ++ ("&" ++ kv.1 ++ "=" ++ kv.2)) "",
                   Body := none }) ∧
        (GetAllProducts env bc args fuel).2.Nodup ∧
        (∀ j, 1 ≤ j → j < n → (productsPage env bc args j).2.2 = none) ∧
        (1 ≤ n → (productsPage env bc args n).2.2 ≠ none →
          ∀ fuel2, fuel ≤ fuel2 →
            GetAllProducts env bc args fuel2 = GetAllProducts env bc args fuel)) := by
  constructor
  · obtain ⟨n, _, h2, _, h4, h5⟩ :=
      GetAllPostsLoop_requests env bc 0 fuel 0 [] (fun j h1 h2 => absurd h1 (by omega))
    have h4 : (GetAllPosts env bc fuel).2 = postsTrace n := h4
    refine ⟨n, by omega, by rw [h4, postsTrace_eq], by rw [h4]; exact postsTrace_nodup n,
      fun j h1 h2 => (h5 j h1 h2).1, ?_⟩
    intro hn hfail fuel2 hle
    obtain ⟨m, rfl⟩ : ∃ m, n = m + 1 := ⟨n - 1, by omega⟩
    obtain ⟨e, he⟩ := Option.ne_none_iff_exists'.mp hfail
    have hgo : ∀ j, 1 ≤ j → j ≤ m →
        (postsPage env bc j).2.2 = none ∧ (postsPage env bc j).2.1 = true :=
      fun j h1 h2 => h5 j h1 (by omega)
    rw [GetAllPosts_fail_at env bc m e hgo he fuel2 (by omega),
      GetAllPosts_fail_at env bc m e hgo he fuel (by omega)]
  · obtain ⟨n, _, h2, _, h4, h5⟩ :=
      GetAllProductsLoop_requests env bc args 0 fuel 0 []
        (fun j h1 h2 => absurd h1 (by omega))
    have h4 : (GetAllProducts env bc args fuel).2 = productsTrace env args n := h4
    refine ⟨n, by omega, by rw [h4]; exact productsTrace_length env args n,
      by rw [h4]; exact productsTrace_request env args n,
      by rw [h4]; exact productsTrace_nodup env args n,
      fun j h1 h2 => (h5 j h1 h2).1, ?_⟩
    intro hn hfail fuel2 hle
    obtain ⟨m, rfl⟩ : ∃ m, n = m + 1 := ⟨n - 1, by omega⟩
    obtain ⟨e, he⟩ := Option.ne_none_iff_exists'.mp hfail
    have hgo : ∀ j, 1 ≤ j → j ≤ m →
        (productsPage env bc args j).2.2 = none ∧ (productsPage env bc args j).2.1 = true :=
      fun j h1 h2 => h5 j h1 (by omega)
    rw [GetAllProducts_fail_at env bc args m e hgo he fuel2 (by omega),
      GetAllProducts_fail_at env bc args m e hgo he fuel (by omega)]

/-! ## Count-based pager: the full last page -/

/-- C10, as stated, fails at the store of 251 posts: page 1 is fetched with
exactly 250 posts, the extra request for page 2 succeeds with one post (not
zero), and the call ends there with a nil error without requesting page 3. -/
theorem GetAllPosts_full_page_counterexample :
    ((postsPage exEnv exClientPosts 1).2.2 = none ∧
        (postsPage exEnv exClientPosts 1).1.length = 250) ∧
      ((postsPage exEnv exClientPosts 2).2.2 = none ∧
        (postsPage exEnv exClientPosts 2).1.length = 1) ∧
      GetAllPosts exEnv exClientPosts 5 =
        (some (List.replicate 250 "post" ++ ["last post"], none),
          [postsRequest 1, postsRequest 2]) ∧
      postsRequest 3 ∉ (GetAllPosts exEnv exClientPosts 5).2 := by
  decide

/-- C10, amended: when the pages 1..m are fetched with exactly 250 posts
each, `GetAllPosts` issues one more request, for page m + 1 (first part);
the call ends at that request, with a nil error, when it succeeds with a number
of posts other than 250 (second part) and, with an error, when it fails (third
part); it requests yet another page when that request succeeds with exactly
250 posts (fourth part). -/
theorem GetAllPosts_full_page {T : Types} (env : Env T) (bc : Client) (m : Nat)
    (hfull : ∀ j, 1 ≤ j → j ≤ m →
      (postsPage env bc j).2.2 = none ∧ (postsPage env bc j).1.length = 250) :
    (∀ fuel, m + 1 ≤ fuel →
        ∃ n, m + 1 ≤ n ∧ (GetAllPosts env bc fuel).2 = (List.range' 1 n).map postsRequest) ∧
      ((postsPage env bc (m + 1)).2.2 = none → (postsPage env bc (m + 1)).1.length ≠ 250 →
        ∀ fuel, m + 1 ≤ fuel →
          GetAllPosts env bc fuel =
            (some (pagesConcat (fun j => (postsPage env bc j).1) (m + 1), none),
              (List.range' 1 (m + 1)).map postsRequest)) ∧
      ((postsPage env bc (m + 1)).2.2 ≠ none →
        ∀ fuel, m + 1 ≤ fuel →
          ∃ e, GetAllPosts env bc fuel =
            (some (pagesConcat (fun j => (postsPage env bc j).1) m, some e),
              (List.range' 1 (m + 1)).map postsRequest)) ∧
      ((postsPage env bc (m + 1)).2.2 = none → (postsPage env bc (m + 1)).1.length = 250 →
        ∀ fuel, m + 2 ≤ fuel →
          ∃ n, m + 2 ≤ n ∧
            (GetAllPosts env bc fuel).2 = (List.range' 1 n).map postsRequest) := by
  have hgo : ∀ j, 1 ≤ j → j ≤ m →
      (postsPage env bc j).2.2 = none ∧ (postsPage env bc j).2.1 = true := by
    intro j h1 h2
    have hj := hfull j h1 h2
    exact ⟨hj.1, by rw [postsPage_more env bc j hj.1]; simp [hj.2]⟩
  have hreq : ∀ (q : Nat), (∀ j, 1 ≤ j → j ≤ q →
      (postsPage env bc j).2.2 = none ∧ (postsPage env bc j).2.1 = true) →
      ∀ fuel, q + 1 ≤ fuel →
        ∃ n, q + 1 ≤ n ∧ (GetAllPosts env bc fuel).2 = (List.range' 1 n).map postsRequest := by
    intro q hq fuel hfuel
    obtain ⟨f, rfl⟩ : ∃ f, fuel = q + (f + 1) := ⟨fuel - (q + 1), by omega⟩
    rw [GetAllPosts, GetAllPostsLoop_unroll env bc (f + 1) 0 q hq]
    obtain ⟨n, _, _, h3, h4, _⟩ := GetAllPostsLoop_requests env bc 0 (f + 1) q
      (pagesConcat (fun j => (postsPage env bc j).1) q) hq
    exact ⟨n, h3 (by omega), h4⟩
  refine ⟨hreq m hgo, ?_, ?_, ?_⟩
  · intro herr hlen fuel hfuel
    obtain ⟨f, rfl⟩ : ∃ f, fuel = m + (f + 1) := ⟨fuel - (m + 1), by omega⟩
    have hstop : (postsPage env bc (m + 1)).2.1 = false := by
      rw [postsPage_more env bc (m + 1) herr]
      simpa using hlen
    rw [GetAllPosts, GetAllPostsLoop_unroll env bc (f + 1) 0 m hgo,
      GetAllPostsLoop_last env bc f m _ 0 herr hstop, pagesConcat_succ]
    rfl
  · intro hfail fuel hfuel
    obtain ⟨e, he⟩ := Option.ne_none_iff_exists'.mp hfail
    rw [GetAllPosts_fail_at env bc m e hgo he fuel hfuel]
    exact ⟨_, rfl⟩
  · intro herr hlen fuel hfuel
    refine hreq (m + 1) ?_ fuel hfuel
    intro j h1 h2
    rcases Nat.lt_or_ge j (m + 1) with hlt | hge
    · exact hgo j h1 (by omega)
    · obtain rfl : j = m + 1 := by omega
      exact ⟨herr, by rw [postsPage_more env bc (m + 1) herr]; simp [hlen]⟩

/-- C10, amended, at the store of 251 posts with m = 1: page 2 is requested and
the call ends there with the 251 posts. -/
theorem GetAllPosts_full_page_witness :
    (∃ n, 1 + 1 ≤ n ∧
        (GetAllPosts exEnv exClientPosts 2).2 = (List.range' 1 n).map postsRequest) ∧
      GetAllPosts exEnv exClientPosts 2 =
        (some (pagesConcat (fun j => (postsPage exEnv exClientPosts j).1) (1 + 1), none),
          (List.range' 1 (1 + 1)).map postsRequest) :=
  have h := GetAllPosts_full_page exEnv exClientPosts 1
    (fun j h1 h2 => by
      obtain rfl : j = 1 := by omega
      exact ⟨by decide, by decide⟩)
  ⟨h.1 2 (Nat.le_refl 2), h.2.1 (by decide) (by decide) 2 (Nat.le_refl 2)⟩

/-! ## MaxRetries in the products pager -/

/-- The products loop does not read MaxRetries in any observable way. -/
theorem GetAllProductsLoop_MaxRetries {T : Types} (env : Env T)
    (Do : Trace → Request → Except GoError Response) (args : GoMap String) (m1 m2 : Int) :
    ∀ (fuel : Nat) (ps : List T.Product) (page : Nat) (r1 r2 : Int) (h : Trace),
      GetAllProductsLoop env { MaxRetries := m1, Do := Do } args fuel ps page r1 h =
        GetAllProductsLoop env { MaxRetries := m2, Do := Do } args fuel ps page r2 h := by
  intro fuel
  induction fuel with
  | zero => intro ps page r1 r2 h; rfl
  | succ f ih =>
    intro ps page r1 r2 h
    have hget : GetProducts env { MaxRetries := m1, Do := Do } args page h =
        GetProducts env { MaxRetries := m2, Do := Do } args page h := rfl
    rw [GetAllProductsLoop, GetAllProductsLoop, hget]
    rcases GetProducts env { MaxRetries := m2, Do := Do } args page h with
      ⟨⟨psp, more, _ | e⟩, h1⟩
    · cases more
      · simp
      · simpa using ih (ps ++ psp) (page + 1) r1 r2 h1
    · simp

/-- A products loop that returns an error returns the error of the last fetch
it issued. -/
theorem GetAllProductsLoop_error {T : Types} (env : Env T) (bc : Client) (args : GoMap String)
    (r : Int) :
    ∀ (fuel q : Nat) (ps0 ps : List T.Product) (e : GoError),
      (GetAllProductsLoop env bc args fuel ps0 (q + 1) r (productsTrace env args q)).1 =
        some (ps, some e) →
      ∃ n, q + 1 ≤ n ∧
        (GetAllProductsLoop env bc args fuel ps0 (q + 1) r (productsTrace env args q)).2 =
          productsTrace env args n ∧
        (productsPage env bc args n).2.2 = some e := by
  intro fuel
  induction fuel with
  | zero =>
    intro q ps0 ps e hres
    simp [GetAllProductsLoop] at hres
  | succ f ih =>
    intro q ps0 ps e hres
    cases herr : (productsPage env bc args (q + 1)).2.2 with
    | some e1 =>
      rw [GetAllProductsLoop_fail env bc args f q ps0 r e1 herr] at hres ⊢
      simp only [Option.some.injEq, Prod.mk.injEq] at hres
      exact ⟨q + 1, Nat.le_refl _, rfl, by rw [herr, hres.2]⟩
    | none =>
      cases hmore : (productsPage env bc args (q + 1)).2.1 with
      | false =>
        rw [GetAllProductsLoop_last env bc args f q ps0 r herr hmore] at hres
        simp at hres
      | true =>
        rw [GetAllProductsLoop_next env bc args f q ps0 r herr hmore] at hres ⊢
        obtain ⟨n, h1, h2, h3⟩ := ih (q + 1) _ ps e hres
        exact ⟨n, by omega, h2, h3⟩

/-- C11: MaxRetries has no observable effect on `GetAllProducts`: for every
transport and collaborators, any two values of MaxRetries (zero and negative
ones included) and any length of run, the two calls issue the same requests and
return the same products and the same error; and an error returned by the call
is the error of the failing fetch, which is the last request issued. -/
theorem GetAllProducts_MaxRetries_irrelevant {T : Types} (env : Env T)
    (Do : Trace → Request → Except GoError Response) (args : GoMap String) (fuel : Nat) :
    (∀ m1 m2 : Int,
        GetAllProducts env { MaxRetries := m1, Do := Do } args fuel =
          GetAllProducts env { MaxRetries := m2, Do := Do } args fuel) ∧
      (∀ (m : Int) (ps : List T.Product) (e : GoError),
        (GetAllProducts env { MaxRetries := m, Do := Do } args fuel).1 = some (ps, some e) →
        ∃ n, 1 ≤ n ∧
          (GetAllProducts env { MaxRetries := m, Do := Do } args fuel).2 =
            productsTrace env args n ∧
          (productsPage env { MaxRetries := m, Do := Do } args n).2.2 = some e) := by
  constructor
  · intro m1 m2
    exact GetAllProductsLoop_MaxRetries env Do args m1 m2 fuel [] 1 0 0 []
  · intro m ps e hres
    exact GetAllProductsLoop_error env { MaxRetries := m, Do := Do } args 0 fuel 0 [] ps e hres

/-- C11 at a transport that is down: MaxRetries = -1 and MaxRetries = 3 give the
same outcome, and the error returned is the one of the fetch of page 1. -/
theorem GetAllProducts_MaxRetries_irrelevant_witness :
    GetAllProducts exEnv { MaxRetries := -1, Do := exServe [] } [] 2 =
        GetAllProducts exEnv { MaxRetries := 3, Do := exServe [] } [] 2 ∧
      ∃ n, 1 ≤ n ∧
        (GetAllProducts exEnv { MaxRetries := -1, Do := exServe [] } [] 2).2 =
          productsTrace exEnv [] n ∧
        (productsPage exEnv { MaxRetries := -1, Do := exServe [] } [] n).2.2 =
          some (GoError.new "connection refused") :=
  have h := GetAllProducts_MaxRetries_irrelevant exEnv (exServe []) [] 2
  ⟨h.1 (-1) 3, h.2 (-1) [] (GoError.new "connection refused") (by decide)⟩

/-! ## Metafield index with repeated keys -/

theorem GoMap.get_set {V : Type} (m : GoMap V) (k : String) (v : V) (k2 : String) :
    (m.set k v).get k2 = if k = k2 then some v else m.get k2 := by
  induction m with
  | nil => simp [GoMap.set, GoMap.get]
  | cons e rest ih =>
    obtain ⟨k1, v1⟩ := e
    by_cases h1 : k1 = k
    · subst h1
      by_cases h2 : k1 = k2 <;> simp [GoMap.set, GoMap.get, h2]
    · by_cases h2 : k1 = k2
      · subst h2
        have h3 : ¬ k = k1 := fun h => h1 h.symm
        simp [GoMap.set, GoMap.get, h1, h3]
      · simp [GoMap.set, GoMap.get, h1, h2, ih]

theorem GoMap.mem_keys_set {V : Type} (m : GoMap V) (k : String) (v : V) (k2 : String) :
    k2 ∈ (m.set k v).keys ↔ k2 = k ∨ k2 ∈ m.keys := by
  induction m with
  | nil => simp [GoMap.set, GoMap.keys]
  | cons e rest ih =>
    obtain ⟨k1, v1⟩ := e
    simp only [GoMap.keys] at ih
    by_cases h1 : k1 = k
    · subst h1
      simp [GoMap.set, GoMap.keys]
    · simp only [GoMap.set, h1, if_false, GoMap.keys, List.map_cons, List.mem_cons, ih]
      tauto

theorem GoMap.nodup_keys_set {V : Type} (m : GoMap V) (k : String) (v : V)
    (hm : m.keys.Nodup) : (m.set k v).keys.Nodup := by
  induction m with
  | nil => simp [GoMap.set, GoMap.keys]
  | cons e rest ih =>
    obtain ⟨k1, v1⟩ := e
    have hm2 : k1 ∉ GoMap.keys rest ∧ (GoMap.keys rest).Nodup := by
      simpa [GoMap.keys] using hm
    by_cases h1 : k1 = k
    · subst h1
      simpa [GoMap.set, GoMap.keys] using hm
    · have hnot : k1 ∉ (GoMap.set rest k v).keys := by
        rw [GoMap.mem_keys_set]
        exact fun h => h.elim h1 hm2.1
      have hrest := ih hm2.2
      simp only [GoMap.set, h1, if_false]
      exact List.nodup_cons.mpr ⟨hnot, hrest⟩

theorem indexMetafields_concat {Time : Type} (metafields : List (Metafield Time))
    (mf : Metafield Time) :
    indexMetafields (metafields ++ [mf]) = (indexMetafields metafields).set mf.Key mf := by
  simp [indexMetafields, List.foldl_append]

/-- The index of any list: its keys are pairwise distinct, they are the keys
occurring in the list, and each key holds the record of its last occurrence. -/
theorem indexMetafields_spec {Time : Type} (metafields : List (Metafield Time)) :
    (indexMetafields metafields).keys.Nodup ∧
      (∀ k, k ∈ (indexMetafields metafields).keys ↔ k ∈ metafields.map (fun mf => mf.Key)) ∧
      ∀ k, (indexMetafields metafields).get k =
        (metafields.filter (fun mf => decide (mf.Key = k))).getLast? := by
  induction metafields using List.reverseRecOn with
  | nil => simp [indexMetafields, GoMap.keys, GoMap.get]
  | append_singleton rest mf ih =>
    obtain ⟨h1, h2, h3⟩ := ih
    rw [indexMetafields_concat]
    refine ⟨GoMap.nodup_keys_set _ _ _ h1, ?_, ?_⟩
    · intro k
      rw [GoMap.mem_keys_set, h2]
      simp only [List.map_append, List.map_cons, List.map_nil, List.mem_append,
        List.mem_singleton]
      tauto
    · intro k
      rw [GoMap.get_set, h3, List.filter_append]
      by_cases hk : mf.Key = k
      · simp [hk, List.filter_cons]
      · simp [hk, List.filter_cons]

/-- C12: for every decoded metafield list, keys repeated or not,
`GetProductMetafields` returns with a nil error a mapping that has exactly one
entry per distinct key occurring in the list, each key holding the record of
its last occurrence in the list; in particular the records without a key (Key
is the empty string) are all indexed under the empty-string key, which holds
the last of them. -/
theorem GetProductMetafields_last_wins {T : Types} (env : Env T) (bc : Client)
    (productID : Int) (h : Trace) (res : Response) (body : String)
    (metafields : List (Metafield T.Time))
    (hdo : bc.Do h (metafieldsRequest productID) = .ok res)
    (hpb : env.processBody res = (body, none))
    (hdec : env.unmarshalMetafields body = .ok metafields) :
    ∃ ret : GoMap (Metafield T.Time),
      (GetProductMetafields env bc productID h).1 = (some ret, none) ∧
        ret.keys.Nodup ∧
        (∀ k, k ∈ ret.keys ↔ k ∈ metafields.map (fun mf => mf.Key)) ∧
        ret.len = (metafields.map (fun mf => mf.Key)).dedup.length ∧
        (∀ k, ret.get k = (metafields.filter (fun mf => decide (mf.Key = k))).getLast?) ∧
        ((∃ mf ∈ metafields, mf.Key = "") →
          "" ∈ ret.keys ∧
            ret.get "" = (metafields.filter (fun mf => decide (mf.Key = ""))).getLast?) := by
  obtain ⟨h1, h2, h3⟩ := indexMetafields_spec metafields
  refine ⟨indexMetafields metafields, ?_, h1, h2, ?_, h3, ?_⟩
  · simp only [GetProductMetafields, hdo, hpb, hdec]
  · have hperm : (indexMetafields metafields).keys.Perm
        (metafields.map (fun mf => mf.Key)).dedup :=
      (List.perm_ext_iff_of_nodup h1 (List.nodup_dedup _)).mpr
        (fun k => by rw [h2, List.mem_dedup])
    have hlen := hperm.length_eq
    simpa [GoMap.len, GoMap.keys] using hlen
  · rintro ⟨mf, hmf, hkey⟩
    exact ⟨(h2 "").mpr (List.mem_map.mpr ⟨mf, hmf, hkey⟩), h3 ""⟩

/-- C12 at a list with the key color twice and two records without a key: two
entries, color holding the later record and the empty key the later keyless
record. -/
theorem GetProductMetafields_last_wins_witness :
    (GetProductMetafields exEnv (exClientOK "color twice, key absent twice") 12 []).1 =
        (some [("color", exMetafield "color" "blue"), ("", exMetafield "" "second")], none) ∧
      ∃ ret : GoMap (Metafield String),
        (GetProductMetafields exEnv (exClientOK "color twice, key absent twice") 12 []).1 =
            (some ret, none) ∧
          ret.len = 2 ∧ ret.get "color" = some (exMetafield "color" "blue") ∧
          ret.get "" = some (exMetafield "" "second") :=
  ⟨by decide, by
    obtain ⟨ret, h1, _, _, h4, h5, _⟩ :=
      GetProductMetafields_last_wins exEnv (exClientOK "color twice, key absent twice") 12 []
        ⟨200, .ok "color twice, key absent twice"⟩ "color twice, key absent twice"
        [exMetafield "color" "red", exMetafield "" "first", exMetafield "color" "blue",
          exMetafield "" "second"] rfl rfl rfl
    refine ⟨ret, h1, ?_, ?_, ?_⟩
    · rw [h4]; decide
    · rw [h5]; decide
    · rw [h5]; decide⟩

end Bigcommerce
